import Mathlib

/-!
Verification of the Serai signing-pipeline excerpt.

This file shallowly embeds the Rust sources of the excerpt:
* `coins/monero/ringct/clsag/src/lib.rs` (CLSAG ring signatures),
* `processor/messages/src/lib.rs` (message taxonomy, intents, `cosign_block_msg`),
* `processor/signers/src/lib.rs` (session registration / retirement / boot cleanup),
* `processor/signers/src/cosign/mod.rs` (the cosigner task),
* `processor/scanner/src/report.rs` and `report/db.rs` (batch building),
and proves the spec's quantified properties about them.

Machine integers are embedded as `Nat` (with explicit bounds where wrapping
matters), byte strings as `List Nat` whose entries are byte values, fallible
code as `Option`/`Except`, and the database as explicit state records.
-/

namespace Serai

/-- Bytes are modelled as lists of naturals (each intended to be `< 256`). -/
abbrev Bytes := List Nat

instance exceptDecidableEq {ε α : Type} [DecidableEq ε] [DecidableEq α] :
    DecidableEq (Except ε α)
  | .error e, .error f =>
    if h : e = f then isTrue (by rw [h]) else isFalse (fun hh => h (Except.error.inj hh))
  | .error _, .ok _ => isFalse Except.noConfusion
  | .ok _, .error _ => isFalse Except.noConfusion
  | .ok a, .ok b =>
    if h : a = b then isTrue (by rw [h]) else isFalse (fun hh => h (Except.ok.inj hh))

/-- Little-endian byte encoding of `x` over `w` bytes (the encoding of the
Rust `to_le_bytes` family; values `≥ 2^(8*w)` wrap, as machine ints do). -/
def toLeBytes (w x : Nat) : Bytes :=
  (List.range w).map fun j => x / 256 ^ j % 256

/-- Little-endian decoding, inverse of `toLeBytes` on in-range values. -/
def fromLeBytes (bs : Bytes) : Nat :=
  bs.foldr (fun b acc => acc * 256 + b) 0

theorem toLeBytes_length (w x : Nat) : (toLeBytes w x).length = w := by
  simp [toLeBytes]

theorem toLeBytes_succ (w x : Nat) :
    toLeBytes (w + 1) x = (x % 256) :: toLeBytes w (x / 256) := by
  simp only [toLeBytes, List.range_succ_eq_map, List.map_cons, List.map_map]
  refine congrArg₂ _ (by simp) (List.map_congr_left fun j _ => ?_)
  simp [Function.comp, Nat.div_div_eq_div_mul, Nat.pow_succ, Nat.mul_comm]

theorem fromLeBytes_toLeBytes (w x : Nat) (hx : x < 256 ^ w) :
    fromLeBytes (toLeBytes w x) = x := by
  induction w generalizing x with
  | zero => simpa [toLeBytes, fromLeBytes] using (Nat.lt_one_iff.mp hx).symm
  | succ w ih =>
    rw [toLeBytes_succ]
    have hdiv : x / 256 < 256 ^ w := by
      rw [Nat.div_lt_iff_lt_mul (by norm_num)]
      calc x < 256 ^ (w + 1) := hx
        _ = 256 ^ w * 256 := by ring
    simp only [fromLeBytes, List.foldr_cons]
    have := ih (x / 256) hdiv
    simp only [fromLeBytes] at this
    rw [this]
    omega

theorem toLeBytes_injOn (w : Nat) {x y : Nat} (hx : x < 256 ^ w) (hy : y < 256 ^ w)
    (h : toLeBytes w x = toLeBytes w y) : x = y := by
  have := congrArg fromLeBytes h
  rwa [fromLeBytes_toLeBytes w x hx, fromLeBytes_toLeBytes w y hy] at this

/-! ### `cosign_block_msg` (processor/messages/src/lib.rs)

```rust
pub fn cosign_block_msg(block_number: u64, block: [u8; 32]) -> Vec<u8> {
  const DST: &[u8] = b"Cosign";
  let mut res = vec![u8::try_from(DST.len()).unwrap()];
  res.extend(DST);
  res.extend(block_number.to_le_bytes());
  res.extend(block);
  res
}
```
-/

/-- The ASCII bytes of `"Cosign"`. -/
def cosignDst : Bytes := [67, 111, 115, 105, 103, 110]

/-- `cosign_block_msg` from `processor/messages/src/lib.rs`. -/
def cosign_block_msg (block_number : Nat) (block : Bytes) : Bytes :=
  [cosignDst.length] ++ cosignDst ++ toLeBytes 8 block_number ++ block

/-! ## CLSAG (coins/monero/ringct/clsag/src/lib.rs)

The ed25519 scalar field is `ZMod ell` with `ell` the prime order of the
basepoint subgroup.  The curve itself is embedded abstractly: a `ClsagGroup`
provides the point group (an additive commutative group, with torsion — the
full `EdwardsPoint` type, not just the prime-order subgroup), the basepoint
`G`, Monero's amount generator `Hgen`, point (de)compression, `hash_to_point`
and `keccak256_to_scalar`, together with the facts the code relies on:
compressed points are 32 bytes, and `G`, `Hgen` and every `hash_to_point`
output lie in the prime-order (`ell`-torsion) subgroup — `hash_to_point`
multiplies its candidate by the cofactor, and `G`/`Hgen` have order `ell`.

`natSmul` is scalar multiplication by a natural number; the law `natSmul_eq`
ties it to the `ℕ`-action of the additive group.  Scalar multiplication by a
`Scalar` uses the scalar's canonical representative, exactly as
`curve25519-dalek` multiplies a point by a (reduced) `Scalar`.
-/

/-- The order of the ed25519 basepoint subgroup
(`2^252 + 27742317777372353535851937790883648493`). -/
def ell : Nat := 2 ^ 252 + 27742317777372353535851937790883648493

/-- `curve25519_dalek::scalar::Scalar`: integers modulo `ell`. -/
abbrev Scalar := ZMod ell

theorem ell_pos : 0 < ell := by norm_num [ell]

instance : NeZero ell := ⟨by norm_num [ell]⟩

/-- The ed25519 point group together with the generators, hash functions and
byte encodings the CLSAG code uses, and the subgroup facts it relies on. -/
structure ClsagGroup where
  /-- `curve25519_dalek::edwards::EdwardsPoint` (the full group, torsion included). -/
  Point : Type
  [pointAddCommGroup : AddCommGroup Point]
  [pointDecEq : DecidableEq Point]
  /-- Scalar multiplication by a natural number (an executable realization of
  the `ℕ`-action on the group). -/
  natSmul : Nat → Point → Point
  /-- `ED25519_BASEPOINT_POINT`. -/
  G : Point
  /-- Monero's amount generator `H`. -/
  Hgen : Point
  /-- `EdwardsPoint::compress().to_bytes()`: the canonical 32-byte encoding. -/
  compress : Point → Bytes
  /-- `monero_generators::hash_to_point` (on 32 compressed bytes). -/
  hash_to_point : Bytes → Point
  /-- `monero_primitives::keccak256_to_scalar`. -/
  keccak256_to_scalar : Bytes → Scalar
  natSmul_eq : ∀ n P, natSmul n P = n • P
  compress_length : ∀ P, (compress P).length = 32
  G_torsion : ell • G = 0
  Hgen_torsion : ell • Hgen = 0
  hash_to_point_torsion : ∀ b, ell • hash_to_point b = 0

attribute [instance] ClsagGroup.pointAddCommGroup ClsagGroup.pointDecEq

variable (Gp : ClsagGroup)

/-- Multiplication of a point by a `Scalar`, via the scalar's canonical
representative — `curve25519-dalek`'s `Scalar * EdwardsPoint`. -/
def smulP (s : Scalar) (P : Gp.Point) : Gp.Point := Gp.natSmul s.val P

/-- `monero_primitives::INV_EIGHT`: the inverse of 8 modulo `ell`.
Modelled from the spec: `D` is transmitted cofactor-divided (`D/8`), so the
constant satisfies `8 * INV_EIGHT = 1`. `(3 * ell + 1) / 8` is the canonical
representative of `8⁻¹ (mod ell)`. -/
def INV_EIGHT : Scalar := ((3 * ell + 1) / 8 : Nat)

theorem eight_mul_inv_eight : (8 : Scalar) * INV_EIGHT = 1 := by decide

/-! Torsion-aware lemmas about `smulP`.  On the full Edwards group, `Scalar`
multiplication is linear only on `ell`-torsion points; these lemmas isolate
exactly what the CLSAG algebra needs. -/

theorem smulP_def (s : Scalar) (P : Gp.Point) : smulP Gp s P = s.val • P := by
  rw [smulP, Gp.natSmul_eq]

/-- A point of the prime-order subgroup. -/
def PTorsionFree (P : Gp.Point) : Prop := ell • P = 0

theorem ptf_mod_smul {P : Gp.Point} (h : PTorsionFree Gp P) (x : Nat) :
    (x % ell) • P = x • P := by
  conv_rhs => rw [← Nat.div_add_mod x ell]
  rw [add_smul, mul_comm, mul_smul, h, smul_zero, zero_add]

theorem ptf_smulP (s : Scalar) {P : Gp.Point} (h : PTorsionFree Gp P) :
    PTorsionFree Gp (smulP Gp s P) := by
  rw [smulP_def, PTorsionFree, smul_comm]
  rw [PTorsionFree] at h
  rw [h, smul_zero]

theorem ptf_natSmul (n : Nat) {P : Gp.Point} (h : PTorsionFree Gp P) :
    PTorsionFree Gp (Gp.natSmul n P) := by
  rw [Gp.natSmul_eq, PTorsionFree, smul_comm]
  rw [PTorsionFree] at h
  rw [h, smul_zero]

theorem smulP_add {P : Gp.Point} (h : PTorsionFree Gp P) (a b : Scalar) :
    smulP Gp (a + b) P = smulP Gp a P + smulP Gp b P := by
  rw [smulP_def, smulP_def, smulP_def, ZMod.val_add, ptf_mod_smul Gp h, add_smul]

theorem smulP_mul {P : Gp.Point} (h : PTorsionFree Gp P) (a b : Scalar) :
    smulP Gp (a * b) P = smulP Gp a (smulP Gp b P) := by
  rw [smulP_def, smulP_def, smulP_def, ZMod.val_mul, ptf_mod_smul Gp h, mul_smul]

theorem smulP_sub {P : Gp.Point} (h : PTorsionFree Gp P) (a b : Scalar) :
    smulP Gp (a - b) P = smulP Gp a P - smulP Gp b P := by
  have := smulP_add Gp h (a - b) b
  rw [sub_add_cancel] at this
  rw [this]
  abel

theorem smulP_natCast_smul {P : Gp.Point} (h : PTorsionFree Gp P) (n : Nat) :
    smulP Gp (n : Scalar) P = n • P := by
  rw [smulP_def, ZMod.val_natCast, ptf_mod_smul Gp h]

/-- `8 • (INV_EIGHT • P) = P` on the prime-order subgroup: reading a
cofactor-divided point back via `mul_by_cofactor` is the identity there. -/
theorem natSmul_eight_smulP_inv_eight {P : Gp.Point} (h : PTorsionFree Gp P) :
    Gp.natSmul 8 (smulP Gp INV_EIGHT P) = P := by
  have h8 : ((8 : Nat) : Scalar) = (8 : Scalar) := by norm_cast
  have : Gp.natSmul 8 (smulP Gp INV_EIGHT P) = smulP Gp ((8 : Nat) : Scalar) (smulP Gp INV_EIGHT P) := by
    rw [Gp.natSmul_eq, smulP_natCast_smul Gp (ptf_smulP Gp INV_EIGHT h)]
  rw [this, h8, ← smulP_mul Gp h, eight_mul_inv_eight]
  rw [smulP_def]
  have : ((1 : Scalar)).val = 1 := by decide
  rw [this, one_smul]

/-! ### CLSAG data types -/

/-- `ClsagError` from `clsag/src/lib.rs` (all seven variants). -/
inductive ClsagError where
  | InvalidRing
  | InvalidRingMember (member : Nat) (ringSize : Nat)
  | InvalidCommitment
  | InvalidImage
  | InvalidD
  | InvalidS
  | InvalidC1
deriving DecidableEq, Repr

/-- `monero_primitives::Commitment`.  Modelled from the spec:
`Commitment = { mask: scalar, amount: u64 }` with
`C = mask·G + amount·H` (see §3, CLSAG Inputs). -/
structure Commitment where
  mask : Scalar
  amount : Nat
deriving DecidableEq

/-- `Commitment::calculate()`: `mask·G + amount·H`. -/
def Commitment.calculate (c : Commitment) : Gp.Point :=
  smulP Gp c.mask Gp.G + smulP Gp (c.amount : Scalar) Gp.Hgen

/-- `monero_primitives::Decoys`.  Modelled from the spec: an ordered ring of
`(P_i, C_i)` pairs together with the true-spend index (§3, CLSAG Inputs); the
CLSAG code consumes it through `ring()`, `len()` and `signer_index()`. -/
structure Decoys (Gp : ClsagGroup) where
  ring : List (Gp.Point × Gp.Point)
  signerIndex : Nat

/-- `Decoys::len()`. -/
def Decoys.len (d : Decoys Gp) : Nat := d.ring.length

/-- `ClsagInput` from `clsag/src/lib.rs`. -/
structure ClsagInput (Gp : ClsagGroup) where
  commitment : Commitment
  decoys : Decoys Gp

/-- `ClsagInput::new`, including its three construction checks. -/
def ClsagInput.new (commitment : Commitment) (decoys : Decoys Gp) :
    Except ClsagError (ClsagInput Gp) :=
  let n := decoys.len
  if n > 255 then .error .InvalidRing
  else if decoys.signerIndex ≥ n then
    .error (.InvalidRingMember decoys.signerIndex n)
  else if (decoys.ring.getD decoys.signerIndex (0, 0)).2 ≠ Commitment.calculate Gp commitment then
    .error .InvalidCommitment
  else .ok ⟨commitment, decoys⟩

/-- The `Mode` enum of `clsag/src/lib.rs` (`Sign(usize, A, AH)` / `Verify(c1)`). -/
inductive ClsagMode (Gp : ClsagGroup) where
  | signMode (r : Nat) (A AH : Gp.Point)
  | verifyMode (c1 : Scalar)

/-- `Clsag`: `{ D, s, c1 }`. -/
structure Clsag (Gp : ClsagGroup) where
  D : Gp.Point
  s : List Scalar
  c1 : Scalar

/-! ### The `core` routine

`core` builds one transcript buffer and edits it in place, exactly as the
source does.  The domain-separation constants are the ASCII bytes of
`"CLSAG_"`, `"agg_0"` and `"round"`; `PREFIX_AGG_0_LEN = 11`. -/

/-- `b"CLSAG_"`. -/
def clsagDst : Bytes := [67, 76, 83, 65, 71, 95]

/-- `b"agg_0"`. -/
def aggZeroDst : Bytes := [97, 103, 103, 95, 48]

/-- `b"round"`. -/
def roundDst : Bytes := [114, 111, 117, 110, 100]

/-- The aggregation transcript: `"CLSAG_agg_0"` zero-padded to 32 bytes,
then all `P_i`, all `C_i`, `I`, `D/8` and the pseudo-output. -/
def clsagMuTranscript (ring : List (Gp.Point × Gp.Point)) (I D_INV_EIGHT pseudoOut : Gp.Point) :
    Bytes :=
  (clsagDst ++ aggZeroDst ++ List.replicate (32 - 11) 0)
    ++ (ring.map fun member => Gp.compress member.1).flatten
    ++ (ring.map fun member => Gp.compress member.2).flatten
    ++ Gp.compress I ++ Gp.compress D_INV_EIGHT ++ Gp.compress pseudoOut

/-- The in-place rewrite of the DST from `"agg_0"` to `"round"`
(`for i in 0..ROUND.len() { to_hash[PREFIX.len() + i] = ROUND[i] }`). -/
def writeRoundDst (th : Bytes) : Bytes :=
  (List.range 5).foldl (fun th i => th.set (6 + i) (roundDst.getD i 0)) th

/-- The round transcript: the aggregation transcript truncated back to
`"CLSAG_…" || P_0..P_{n-1} || C_0..C_{n-1}`, its DST rewritten to `"round"`,
then the pseudo-output and the message re-appended. -/
def clsagRoundTranscript (muT : Bytes) (n : Nat) (pseudoOutBytes msg : Bytes) : Bytes :=
  writeRoundDst (muT.take ((2 * n + 1) * 32)) ++ pseudoOutBytes ++ msg

/-- One iteration of `core`'s ring loop, threading `(to_hash, c, c1)`:
`L_i`, `R_i`, the transcript truncation/extension, the next challenge, and the
constant-time capture of `c1` at `i = n - 1`. -/
def clsagStep (P C : List Gp.Point) (I D : Gp.Point) (s : List Scalar) (muP muC : Scalar)
    (n : Nat) (st : Bytes × Scalar × Scalar) (i : Nat) : Bytes × Scalar × Scalar :=
  let c := st.2.1
  let c_p := muP * c
  let c_c := muC * c
  let L := smulP Gp (s.getD i 0) Gp.G + smulP Gp c_p (P.getD i 0) + smulP Gp c_c (C.getD i 0)
  let PH := Gp.hash_to_point (Gp.compress (P.getD i 0))
  let R := smulP Gp c_p I + smulP Gp c_c D + smulP Gp (s.getD i 0) PH
  let th := st.1.take ((2 * n + 3) * 32) ++ Gp.compress L ++ Gp.compress R
  let c' := Gp.keccak256_to_scalar th
  (th, c', if i = n - 1 then c' else st.2.2)

/-- `core` from `clsag/src/lib.rs`.  Returns `((D/8, c·mu_P, c·mu_C), c1)`.
`L` and `R` are written once; the source computes the same group elements by
`multiscalar_mul` when signing and by precomputed vartime algorithms when
verifying. -/
def Clsag.core (ring : List (Gp.Point × Gp.Point)) (I pseudoOut : Gp.Point) (msg : Bytes)
    (D : Gp.Point) (s : List Scalar) (mode : ClsagMode Gp) :
    (Gp.Point × Scalar × Scalar) × Scalar :=
  let n := ring.length
  let D_INV_EIGHT := smulP Gp INV_EIGHT D
  let P := ring.map Prod.fst
  let C := ring.map fun member => member.2 - pseudoOut
  let muT := clsagMuTranscript Gp ring I D_INV_EIGHT pseudoOut
  let muP := Gp.keccak256_to_scalar muT
  let muC := Gp.keccak256_to_scalar (muT.set 10 49)
  let roundT := clsagRoundTranscript muT n (Gp.compress pseudoOut) msg
  let (start, stop, th0, c0) :=
    match mode with
    | .signMode r A AH =>
      let th := roundT ++ Gp.compress A ++ Gp.compress AH
      (r + 1, r + n, th, Gp.keccak256_to_scalar th)
    | .verifyMode c1 => (0, n, roundT, c1)
  let indices := (List.range' start (stop - start)).map (· % n)
  let res := indices.foldl (clsagStep Gp P C I D s muP muC n) (th0, c0, c0)
  ((D_INV_EIGHT, res.2.1 * muP, res.2.1 * muC), res.2.2)

/-! ### Sign and verify -/

/-- An explicit supply of the random scalars `Scalar::random(rng)` draws. -/
structure ClsagRng where
  stream : Nat → Scalar
  idx : Nat

/-- Draw one scalar. -/
def ClsagRng.next (r : ClsagRng) : Scalar × ClsagRng :=
  (r.stream r.idx, ⟨r.stream, r.idx + 1⟩)

/-- Advance the supply by `k` draws. -/
def ClsagRng.advance (r : ClsagRng) (k : Nat) : ClsagRng := ⟨r.stream, r.idx + k⟩

/-- Draw `n` scalars in sequence (the `for _ in 0..n { s.push(Scalar::random(rng)) }`
loop of `sign_core`). -/
def drawScalars (r : ClsagRng) (n : Nat) : List Scalar × ClsagRng :=
  ((List.range n).map fun i => r.stream (r.idx + i), r.advance n)

/-- `ClsagSignCore`. -/
structure ClsagSignCore (Gp : ClsagGroup) where
  incomplete_clsag : Clsag Gp
  pseudo_out : Gp.Point
  key_challenge : Scalar
  challenged_mask : Scalar

/-- `Clsag::sign_core`. -/
def Clsag.sign_core (rng : ClsagRng) (I : Gp.Point) (input : ClsagInput Gp) (mask : Scalar)
    (msg : Bytes) (A AH : Gp.Point) : ClsagSignCore Gp × ClsagRng :=
  let r := input.decoys.signerIndex
  let pseudo_out := Commitment.calculate Gp ⟨mask, input.commitment.amount⟩
  let mask_delta := input.commitment.mask - mask
  let H := Gp.hash_to_point (Gp.compress (input.decoys.ring.getD r (0, 0)).1)
  let D := smulP Gp mask_delta H
  let (s, rng) := drawScalars rng input.decoys.ring.length
  let res := Clsag.core Gp input.decoys.ring I pseudo_out msg D s (.signMode r A AH)
  (⟨⟨res.1.1, s, res.2⟩, pseudo_out, res.1.2.1, res.1.2.2 * mask_delta⟩, rng)

/-- The body of `Clsag::sign`'s loop over its inputs: derive the pseudo-output
mask (`sum_outputs - sum_pseudo_outs` for the last input, fresh randomness
otherwise), build the nonce commitments `A`/`AH`, run `sign_core`, and fill
`s[r]` with `nonce - (key_challenge·x + challenged_mask)`. -/
def clsagSignLoop (rng : ClsagRng) (sumOutputs sumPseudoOuts : Scalar) (msg : Bytes) :
    List (Scalar × Gp.Point × ClsagInput Gp) → List (Clsag Gp × Gp.Point)
  | [] => []
  | (x, I, input) :: rest =>
    let (maskRand, rng) := rng.next
    let mask := if rest.isEmpty then sumOutputs - sumPseudoOuts else maskRand
    let sumPseudoOuts' := if rest.isEmpty then sumPseudoOuts else sumPseudoOuts + mask
    let (nonce, rng) := rng.next
    let r := input.decoys.signerIndex
    let A := smulP Gp nonce Gp.G
    let AH := smulP Gp nonce (Gp.hash_to_point (Gp.compress (input.decoys.ring.getD r (0, 0)).1))
    let (sc, rng) := Clsag.sign_core Gp rng I input mask msg A AH
    let clsag : Clsag Gp := { sc.incomplete_clsag with
      s := sc.incomplete_clsag.s.set r (nonce - (sc.key_challenge * x + sc.challenged_mask)) }
    (clsag, sc.pseudo_out) :: clsagSignLoop rng sumOutputs sumPseudoOuts' msg rest

/-- `Clsag::sign`. -/
def Clsag.sign (rng : ClsagRng) (inputs : List (Scalar × Gp.Point × ClsagInput Gp))
    (sum_outputs : Scalar) (msg : Bytes) : List (Clsag Gp × Gp.Point) :=
  clsagSignLoop Gp rng sum_outputs 0 msg inputs

/-- The pseudo-output masks `Clsag::sign` derives for each input, in order
(random draws for all but the last input, `sum_outputs - sum_pseudo_outs`
for the last). -/
def clsagSignMasks (rng : ClsagRng) (sumOutputs sumPseudoOuts : Scalar) :
    List (Scalar × Gp.Point × ClsagInput Gp) → List Scalar
  | [] => []
  | (_, _, input) :: rest =>
    let (maskRand, rng) := rng.next
    let mask := if rest.isEmpty then sumOutputs - sumPseudoOuts else maskRand
    let sumPseudoOuts' := if rest.isEmpty then sumPseudoOuts else sumPseudoOuts + mask
    mask :: clsagSignMasks (rng.advance (1 + input.decoys.ring.length)) sumOutputs
      sumPseudoOuts' rest

/-- `Clsag::verify` with its preliminary checks, in source order. -/
def Clsag.verify (self : Clsag Gp) (ring : List (Gp.Point × Gp.Point)) (I pseudo_out : Gp.Point)
    (msg : Bytes) : Except ClsagError Unit :=
  if ring.isEmpty then .error .InvalidRing
  else if ring.length ≠ self.s.length then .error .InvalidS
  else if I = 0 ∨ Gp.natSmul ell I ≠ 0 then .error .InvalidImage
  else
    let D := Gp.natSmul 8 self.D
    if D = 0 then .error .InvalidD
    else
      let res := Clsag.core Gp ring I pseudo_out msg D self.s (.verifyMode self.c1)
      if res.2 ≠ self.c1 then .error .InvalidC1
      else .ok ()

/-! ### The challenge chain

`core`'s ring loop, normalized: once the transcript prefix is fixed, each
iteration maps the running challenge `c` through a pure step function.  The
lemmas below recast the `foldl` over `(to_hash, c, c1)` into a `foldl` of
that step function plus a "capture at `i = n - 1`" component, and decompose
the index lists `(start..end).map (% n)` used by the two modes. -/

/-- The challenge map of one ring-loop iteration, as a function of the running
challenge only (the transcript prefix `TR` is fixed). -/
def hashStep (P C : List Gp.Point) (I D : Gp.Point) (s : List Scalar) (muP muC : Scalar)
    (TR : Bytes) (c : Scalar) (i : Nat) : Scalar :=
  Gp.keccak256_to_scalar (TR
    ++ Gp.compress (smulP Gp (s.getD i 0) Gp.G + smulP Gp (muP * c) (P.getD i 0)
        + smulP Gp (muC * c) (C.getD i 0))
    ++ Gp.compress (smulP Gp (muP * c) I + smulP Gp (muC * c) D
        + smulP Gp (s.getD i 0) (Gp.hash_to_point (Gp.compress (P.getD i 0)))))

/-- Iterated challenge map. -/
def chainOf (P C : List Gp.Point) (I D : Gp.Point) (s : List Scalar) (muP muC : Scalar)
    (TR : Bytes) (c : Scalar) (is : List Nat) : Scalar :=
  is.foldl (hashStep Gp P C I D s muP muC TR) c

/-- Challenge map with the `c1` capture at `i = n - 1`. -/
def capFold (P C : List Gp.Point) (I D : Gp.Point) (s : List Scalar) (muP muC : Scalar)
    (TR : Bytes) (n : Nat) (p : Scalar × Scalar) (is : List Nat) : Scalar × Scalar :=
  is.foldl (fun p i =>
    (hashStep Gp P C I D s muP muC TR p.1 i,
      if i = n - 1 then hashStep Gp P C I D s muP muC TR p.1 i else p.2)) p

theorem capFold_fst (P C : List Gp.Point) (I D : Gp.Point) (s : List Scalar) (muP muC : Scalar)
    (TR : Bytes) (n : Nat) (p : Scalar × Scalar) (is : List Nat) :
    (capFold Gp P C I D s muP muC TR n p is).1 = chainOf Gp P C I D s muP muC TR p.1 is := by
  induction is generalizing p with
  | nil => rfl
  | cons i is ih => exact ih _

theorem capFold_append (P C : List Gp.Point) (I D : Gp.Point) (s : List Scalar)
    (muP muC : Scalar) (TR : Bytes) (n : Nat) (p : Scalar × Scalar) (is₁ is₂ : List Nat) :
    capFold Gp P C I D s muP muC TR n p (is₁ ++ is₂)
      = capFold Gp P C I D s muP muC TR n (capFold Gp P C I D s muP muC TR n p is₁) is₂ :=
  List.foldl_append ..

theorem chainOf_append (P C : List Gp.Point) (I D : Gp.Point) (s : List Scalar)
    (muP muC : Scalar) (TR : Bytes) (c : Scalar) (is₁ is₂ : List Nat) :
    chainOf Gp P C I D s muP muC TR c (is₁ ++ is₂)
      = chainOf Gp P C I D s muP muC TR (chainOf Gp P C I D s muP muC TR c is₁) is₂ :=
  List.foldl_append ..

/-- If the closer index `n - 1` never occurs, the capture component is untouched. -/
theorem capFold_snd_of_not_mem (P C : List Gp.Point) (I D : Gp.Point) (s : List Scalar)
    (muP muC : Scalar) (TR : Bytes) (n : Nat) (p : Scalar × Scalar) (is : List Nat)
    (h : (n - 1) ∉ is) :
    (capFold Gp P C I D s muP muC TR n p is).2 = p.2 := by
  induction is generalizing p with
  | nil => rfl
  | cons i is ih =>
    have hi : i ≠ n - 1 := fun hh => h (hh ▸ List.mem_cons_self i is)
    have := ih (p := (hashStep Gp P C I D s muP muC TR p.1 i, p.2))
      (fun hh => h (List.mem_cons_of_mem i hh))
    simpa [capFold, hi] using this

/-- A list ending in the closer index captures the full chain value. -/
theorem capFold_snd_concat_closer (P C : List Gp.Point) (I D : Gp.Point) (s : List Scalar)
    (muP muC : Scalar) (TR : Bytes) (n : Nat) (p : Scalar × Scalar) (is : List Nat) :
    (capFold Gp P C I D s muP muC TR n p (is ++ [n - 1])).2
      = chainOf Gp P C I D s muP muC TR p.1 (is ++ [n - 1]) := by
  rw [capFold_append, chainOf_append]
  have h1 := capFold_fst Gp P C I D s muP muC TR n p is
  generalize hq : capFold Gp P C I D s muP muC TR n p is = q at h1
  have h2 : (capFold Gp P C I D s muP muC TR n q [n - 1]).2
      = hashStep Gp P C I D s muP muC TR q.1 (n - 1) := by
    simp [capFold]
  rw [h2, h1]
  rfl

/-- The `(to_hash, c, c1)` fold of `core`'s loop projects to the challenge
chain and its capture, provided the transcript prefix is stable. -/
theorem clsagStep_foldl_eq (P C : List Gp.Point) (I D : Gp.Point) (s : List Scalar)
    (muP muC : Scalar) (n : Nat) (TR : Bytes) (hTR : TR.length = (2 * n + 3) * 32)
    (is : List Nat) : ∀ (th : Bytes) (c c1 : Scalar), th.take ((2 * n + 3) * 32) = TR →
    (is.foldl (clsagStep Gp P C I D s muP muC n) (th, c, c1)).2
      = capFold Gp P C I D s muP muC TR n (c, c1) is := by
  induction is with
  | nil => intro th c c1 _; rfl
  | cons i is ih =>
    intro th c c1 hth
    rcases he : clsagStep Gp P C I D s muP muC n (th, c, c1) i with ⟨th', c', c1'⟩
    have hth' : th'.take ((2 * n + 3) * 32) = TR := by
      have h0 := congrArg Prod.fst he
      simp only [clsagStep] at h0
      rw [← h0, hth, List.append_assoc]
      exact List.take_left' hTR
    have hc' : c' = hashStep Gp P C I D s muP muC TR c i := by
      have := congrArg (fun q => q.2.1) he
      simp only [clsagStep, hashStep, hth] at this
      exact this.symm
    have hc1' : c1' = if i = n - 1 then hashStep Gp P C I D s muP muC TR c i else c1 := by
      have := congrArg (fun q => q.2.2) he
      simp only [clsagStep, hashStep, hth] at this
      exact this.symm
    rw [List.foldl_cons, he, ih th' c' c1' hth']
    show capFold Gp P C I D s muP muC TR n (c', c1') is
      = capFold Gp P C I D s muP muC TR n
          (capFold Gp P C I D s muP muC TR n (c, c1) [i]) is
    have : capFold Gp P C I D s muP muC TR n (c, c1) [i]
        = (hashStep Gp P C I D s muP muC TR c i,
           if i = n - 1 then hashStep Gp P C I D s muP muC TR c i else c1) := by
      simp [capFold]
    rw [this, ← hc1', ← hc']

/-! Decomposition of the index lists `(start..end).map (|i| i % n)`. -/

theorem mapMod_id (n : Nat) : ∀ (b a : Nat), a + b ≤ n →
    (List.range' a b).map (· % n) = List.range' a b := by
  intro b
  induction b with
  | zero => intro a _; rfl
  | succ b ih =>
    intro a ha
    rw [List.range'_succ, List.map_cons, Nat.mod_eq_of_lt (by omega), ih (a + 1) (by omega)]

theorem mapMod_shift (n : Nat) : ∀ (b a : Nat), n ≤ a → a + b ≤ n + n →
    (List.range' a b).map (· % n) = List.range' (a - n) b := by
  intro b
  induction b with
  | zero => intro a _ _; rfl
  | succ b ih =>
    intro a h1 h2
    have hmod : a % n = a - n := by
      rw [Nat.mod_eq_sub_mod h1, Nat.mod_eq_of_lt (by omega)]
    rw [List.range'_succ, List.map_cons, hmod, ih (a + 1) (by omega) (by omega),
      show a + 1 - n = a - n + 1 from by omega]
    rfl

/-- The sign-mode index list `((r+1)..(r+n)).map (|i| i % n)` is
`[r+1, …, n-1]` followed by `[0, …, r-1]`: every index except `r`, starting
after the signer. -/
theorem signIndices (n r : Nat) (hr : r < n) :
    (List.range' (r + 1) (n - 1)).map (· % n)
      = List.range' (r + 1) (n - 1 - r) ++ List.range r := by
  have hsplit : List.range' (r + 1) (n - 1)
      = List.range' (r + 1) (n - 1 - r) ++ List.range' (r + 1 + (n - 1 - r)) r := by
    have := List.range'_append (r + 1) (n - 1 - r) r 1
    simp only [one_mul] at this
    rw [show r + (n - 1 - r) = n - 1 from by omega] at this
    exact this.symm
  rw [hsplit, List.map_append, mapMod_id n (n - 1 - r) (r + 1) (by omega)]
  rw [show r + 1 + (n - 1 - r) = n by omega, mapMod_shift n r n (le_refl n) (by omega)]
  rw [Nat.sub_self, List.range_eq_range']

/-- The verify-mode index list `(0..n).map (|i| i % n)` is just `0, …, n-1`. -/
theorem verifyIndices (n : Nat) :
    (List.range' 0 n).map (· % n) = List.range n := by
  rw [mapMod_id n n 0 (by omega), List.range_eq_range']

/-! The challenge chain only reads `s` at the indices it visits, so replacing
`s[r]` does not disturb a chain that never visits `r`. -/

theorem hashStep_set_ne (P C : List Gp.Point) (I D : Gp.Point) (s : List Scalar)
    (muP muC : Scalar) (TR : Bytes) (r i : Nat) (v : Scalar) (c : Scalar) (h : i ≠ r) :
    hashStep Gp P C I D (s.set r v) muP muC TR c i = hashStep Gp P C I D s muP muC TR c i := by
  have hs : (s.set r v).getD i 0 = s.getD i 0 := by
    simp [List.getD_eq_getElem?_getD, List.getElem?_set_ne (Ne.symm h)]
  rw [hashStep, hashStep, hs]

theorem chainOf_set_ne (P C : List Gp.Point) (I D : Gp.Point) (s : List Scalar)
    (muP muC : Scalar) (TR : Bytes) (r : Nat) (v : Scalar) (is : List Nat)
    (h : ∀ i ∈ is, i ≠ r) : ∀ c,
    chainOf Gp P C I D (s.set r v) muP muC TR c is = chainOf Gp P C I D s muP muC TR c is := by
  induction is with
  | nil => intro c; rfl
  | cons i is ih =>
    intro c
    have hi : i ≠ r := h i (List.mem_cons_self i is)
    show chainOf Gp P C I D (s.set r v) muP muC TR (hashStep Gp P C I D (s.set r v) muP muC TR c i) is = _
    rw [hashStep_set_ne Gp P C I D s muP muC TR r i v c hi,
      ih (fun j hj => h j (List.mem_cons_of_mem i hj))]
    rfl

theorem capFold_set_ne (P C : List Gp.Point) (I D : Gp.Point) (s : List Scalar)
    (muP muC : Scalar) (TR : Bytes) (n : Nat) (r : Nat) (v : Scalar) (is : List Nat)
    (h : ∀ i ∈ is, i ≠ r) : ∀ p,
    capFold Gp P C I D (s.set r v) muP muC TR n p is = capFold Gp P C I D s muP muC TR n p is := by
  induction is with
  | nil => intro p; rfl
  | cons i is ih =>
    intro p
    have hi : i ≠ r := h i (List.mem_cons_self i is)
    show capFold Gp P C I D (s.set r v) muP muC TR n _ is = capFold Gp P C I D s muP muC TR n _ is
    simp only []
    rw [hashStep_set_ne Gp P C I D s muP muC TR r i v p.1 hi,
      ih (fun j hj => h j (List.mem_cons_of_mem i hj))]

theorem range'_concat_one (s n : Nat) : List.range' s (n + 1) = List.range' s n ++ [s + n] := by
  have := List.range'_append s n 1 1
  simp only [one_mul, List.range'_one] at this
  rw [Nat.add_comm 1 n] at this
  exact this.symm

theorem getD_map_lemma {α β : Type} (l : List α) (f : α → β) (r : Nat) (d : β) (d' : α)
    (h : r < l.length) : (l.map f).getD r d = f (l.getD r d') := by
  rw [List.getD_eq_getElem l d' h, List.getD_eq_getElem _ d (by simpa using h), List.getElem_map]

theorem getD_set_self_lemma {α : Type} (l : List α) (v : α) (r : Nat) (d : α)
    (h : r < l.length) : (l.set r v).getD r d = v := by
  rw [List.getD_eq_getElem _ d (by simpa using h), List.getElem_set_self]

/-! Transcript lengths. -/

theorem compress_flatten_length {α : Type} (f : α → Gp.Point) (l : List α) :
    ((l.map fun m => Gp.compress (f m)).flatten).length = 32 * l.length := by
  induction l with
  | nil => rfl
  | cons a l ih =>
    simp only [List.map_cons, List.flatten_cons, List.length_append, ih,
      Gp.compress_length, List.length_cons]
    ring

theorem clsagMuTranscript_length (ring : List (Gp.Point × Gp.Point)) (I Dw po : Gp.Point) :
    (clsagMuTranscript Gp ring I Dw po).length = (2 * ring.length + 4) * 32 := by
  simp only [clsagMuTranscript, List.length_append, compress_flatten_length Gp Prod.fst,
    compress_flatten_length Gp Prod.snd, Gp.compress_length]
  simp [clsagDst, aggZeroDst]
  ring

theorem writeRoundDst_length (th : Bytes) : (writeRoundDst th).length = th.length := by
  have : ∀ (l : List Nat) (th : Bytes),
      (l.foldl (fun th i => th.set (6 + i) (roundDst.getD i 0)) th).length = th.length := by
    intro l
    induction l with
    | nil => intro th; rfl
    | cons a l ih => intro th; rw [List.foldl_cons, ih, List.length_set]
  exact this _ th

theorem clsagRoundTranscript_length (muT : Bytes) (n : Nat) (pob msg : Bytes)
    (hmuT : muT.length = (2 * n + 4) * 32) (hpob : pob.length = 32) (hmsg : msg.length = 32) :
    (clsagRoundTranscript muT n pob msg).length = (2 * n + 3) * 32 := by
  simp only [clsagRoundTranscript, List.length_append, writeRoundDst_length,
    List.length_take, hmuT, hpob, hmsg]
  rw [min_eq_left (by omega)]
  ring

/-! `core`, characterized mode by mode through the challenge chain. -/

/-- The aggregation transcript as `core` builds it from its `D` argument. -/
def coreMuT (ring : List (Gp.Point × Gp.Point)) (I D pseudoOut : Gp.Point) : Bytes :=
  clsagMuTranscript Gp ring I (smulP Gp INV_EIGHT D) pseudoOut

/-- `mu_P` as `core` derives it. -/
def coreMuP (ring : List (Gp.Point × Gp.Point)) (I D pseudoOut : Gp.Point) : Scalar :=
  Gp.keccak256_to_scalar (coreMuT Gp ring I D pseudoOut)

/-- `mu_C` as `core` derives it. -/
def coreMuC (ring : List (Gp.Point × Gp.Point)) (I D pseudoOut : Gp.Point) : Scalar :=
  Gp.keccak256_to_scalar ((coreMuT Gp ring I D pseudoOut).set 10 49)

/-- The round transcript as `core` derives it. -/
def coreTR (ring : List (Gp.Point × Gp.Point)) (I D pseudoOut : Gp.Point) (msg : Bytes) : Bytes :=
  clsagRoundTranscript (coreMuT Gp ring I D pseudoOut) ring.length (Gp.compress pseudoOut) msg

/-- The challenge/capture pair of `core`'s loop, over a given index list. -/
def coreSpec (ring : List (Gp.Point × Gp.Point)) (I pseudoOut D : Gp.Point) (s : List Scalar)
    (msg : Bytes) (p : Scalar × Scalar) (is : List Nat) : Scalar × Scalar :=
  capFold Gp (ring.map Prod.fst) (ring.map fun member => member.2 - pseudoOut) I D s
    (coreMuP Gp ring I D pseudoOut) (coreMuC Gp ring I D pseudoOut)
    (coreTR Gp ring I D pseudoOut msg) ring.length p is

theorem coreTR_length (ring : List (Gp.Point × Gp.Point)) (I D pseudoOut : Gp.Point)
    (msg : Bytes) (hmsg : msg.length = 32) :
    (coreTR Gp ring I D pseudoOut msg).length = (2 * ring.length + 3) * 32 :=
  clsagRoundTranscript_length _ _ _ _ (clsagMuTranscript_length Gp ring I _ pseudoOut)
    (Gp.compress_length pseudoOut) hmsg

/-- `core` in verify mode: the result is the challenge chain over `0, …, n-1`
started at the stored `c1`, with its capture at `n-1`. -/
theorem core_verify_eq (ring : List (Gp.Point × Gp.Point)) (I pseudoOut : Gp.Point)
    (msg : Bytes) (D : Gp.Point) (s : List Scalar) (c1 : Scalar) (hmsg : msg.length = 32) :
    Clsag.core Gp ring I pseudoOut msg D s (.verifyMode c1)
      = ((smulP Gp INV_EIGHT D,
          (coreSpec Gp ring I pseudoOut D s msg (c1, c1) (List.range ring.length)).1
            * coreMuP Gp ring I D pseudoOut,
          (coreSpec Gp ring I pseudoOut D s msg (c1, c1) (List.range ring.length)).1
            * coreMuC Gp ring I D pseudoOut),
         (coreSpec Gp ring I pseudoOut D s msg (c1, c1) (List.range ring.length)).2) := by
  have hTR := coreTR_length Gp ring I D pseudoOut msg hmsg
  have hfold := clsagStep_foldl_eq Gp (ring.map Prod.fst)
    (ring.map fun member => member.2 - pseudoOut) I D s
    (coreMuP Gp ring I D pseudoOut) (coreMuC Gp ring I D pseudoOut) ring.length
    (coreTR Gp ring I D pseudoOut msg) hTR
    ((List.range' 0 (ring.length - 0)).map (· % ring.length))
    (coreTR Gp ring I D pseudoOut msg) c1 c1
    (by rw [← hTR]; exact List.take_length _)
  simp only [Clsag.core, coreSpec]
  simp only [coreMuP, coreMuC, coreTR, coreMuT, clsagRoundTranscript] at hfold ⊢
  rw [Nat.sub_zero, verifyIndices] at hfold ⊢
  rw [congrArg Prod.fst hfold, congrArg Prod.snd hfold]

/-- The initial challenge of sign mode: the round transcript extended with the
nonce commitments `A`, `AH`. -/
def coreSignC0 (ring : List (Gp.Point × Gp.Point)) (I D pseudoOut : Gp.Point) (msg : Bytes)
    (A AH : Gp.Point) : Scalar :=
  Gp.keccak256_to_scalar (coreTR Gp ring I D pseudoOut msg ++ Gp.compress A ++ Gp.compress AH)

/-- `core` in sign mode: the loop walks `r+1, …, n-1, 0, …, r-1` from the
`A`/`AH` challenge, capturing `c1` when it passes `n-1`. -/
theorem core_sign_eq (ring : List (Gp.Point × Gp.Point)) (I pseudoOut : Gp.Point)
    (msg : Bytes) (D : Gp.Point) (s : List Scalar) (r : Nat) (A AH : Gp.Point)
    (hr : r < ring.length) (hmsg : msg.length = 32) :
    Clsag.core Gp ring I pseudoOut msg D s (.signMode r A AH)
      = ((smulP Gp INV_EIGHT D,
          (coreSpec Gp ring I pseudoOut D s msg
              (coreSignC0 Gp ring I D pseudoOut msg A AH, coreSignC0 Gp ring I D pseudoOut msg A AH)
              (List.range' (r + 1) (ring.length - 1 - r) ++ List.range r)).1
            * coreMuP Gp ring I D pseudoOut,
          (coreSpec Gp ring I pseudoOut D s msg
              (coreSignC0 Gp ring I D pseudoOut msg A AH, coreSignC0 Gp ring I D pseudoOut msg A AH)
              (List.range' (r + 1) (ring.length - 1 - r) ++ List.range r)).1
            * coreMuC Gp ring I D pseudoOut),
         (coreSpec Gp ring I pseudoOut D s msg
             (coreSignC0 Gp ring I D pseudoOut msg A AH, coreSignC0 Gp ring I D pseudoOut msg A AH)
             (List.range' (r + 1) (ring.length - 1 - r) ++ List.range r)).2) := by
  have hTR := coreTR_length Gp ring I D pseudoOut msg hmsg
  have hfold := clsagStep_foldl_eq Gp (ring.map Prod.fst)
    (ring.map fun member => member.2 - pseudoOut) I D s
    (coreMuP Gp ring I D pseudoOut) (coreMuC Gp ring I D pseudoOut) ring.length
    (coreTR Gp ring I D pseudoOut msg) hTR
    ((List.range' (r + 1) (r + ring.length - (r + 1))).map (· % ring.length))
    (coreTR Gp ring I D pseudoOut msg ++ Gp.compress A ++ Gp.compress AH)
    (coreSignC0 Gp ring I D pseudoOut msg A AH) (coreSignC0 Gp ring I D pseudoOut msg A AH)
    (by rw [List.append_assoc]; exact List.take_left' hTR)
  rw [show r + ring.length - (r + 1) = ring.length - 1 from by omega,
    signIndices ring.length r hr] at hfold
  simp only [Clsag.core, coreSpec]
  simp only [coreSignC0, coreMuP, coreMuC, coreTR, coreMuT, clsagRoundTranscript] at hfold ⊢
  rw [show r + ring.length - (r + 1) = ring.length - 1 from by omega,
    signIndices ring.length r hr]
  rw [congrArg Prod.fst hfold, congrArg Prod.snd hfold]

theorem drawScalars_length (rng : ClsagRng) (n : Nat) : (drawScalars rng n).1.length = n := by
  simp [drawScalars]

/-- The closing step of the chain: at the signer's index, with
`s[r] = nonce - (c·mu_P·x + c·mu_C·δ)`, the loop reproduces the nonce
commitments `A = nonce·G` and `AH = nonce·H_p(P_r)` — the heart of CLSAG
correctness. -/
theorem hashStep_closes (P C : List Gp.Point) (I D : Gp.Point) (s : List Scalar)
    (muP muC : Scalar) (TR : Bytes) (r : Nat) (x δ nonce cf : Scalar) (PH : Gp.Point)
    (hPH : PH = Gp.hash_to_point (Gp.compress (P.getD r 0)))
    (hPHt : PTorsionFree Gp PH)
    (hP : P.getD r 0 = smulP Gp x Gp.G)
    (hC : C.getD r 0 = smulP Gp δ Gp.G)
    (hI : I = smulP Gp x PH)
    (hD : D = smulP Gp δ PH)
    (hs : s.getD r 0 = nonce - ((cf * muP) * x + (cf * muC) * δ)) :
    hashStep Gp P C I D s muP muC TR cf r
      = Gp.keccak256_to_scalar
          (TR ++ Gp.compress (smulP Gp nonce Gp.G) ++ Gp.compress (smulP Gp nonce PH)) := by
  have hG : PTorsionFree Gp Gp.G := Gp.G_torsion
  have hPH2 : Gp.hash_to_point (Gp.compress (smulP Gp x Gp.G)) = PH := by rw [hPH, hP]
  have hL : smulP Gp (nonce - ((cf * muP) * x + (cf * muC) * δ)) Gp.G
      + smulP Gp (muP * cf) (smulP Gp x Gp.G) + smulP Gp (muC * cf) (smulP Gp δ Gp.G)
      = smulP Gp nonce Gp.G := by
    rw [← smulP_mul Gp hG (muP * cf) x, ← smulP_mul Gp hG (muC * cf) δ,
      ← smulP_add Gp hG, ← smulP_add Gp hG]
    exact congrArg (fun t => smulP Gp t Gp.G) (by ring)
  have hR : smulP Gp (muP * cf) (smulP Gp x PH) + smulP Gp (muC * cf) (smulP Gp δ PH)
      + smulP Gp (nonce - ((cf * muP) * x + (cf * muC) * δ)) PH
      = smulP Gp nonce PH := by
    rw [← smulP_mul Gp hPHt (muP * cf) x, ← smulP_mul Gp hPHt (muC * cf) δ,
      ← smulP_add Gp hPHt, ← smulP_add Gp hPHt]
    exact congrArg (fun t => smulP Gp t PH) (by ring)
  rw [hashStep, hs, hP, hC, hI, hD, hPH2, hL, hR]

/-- The verify-mode chain, started at the `c1` a signer captured, closes:
it reproduces that same `c1`.  This packages the whole CLSAG correctness
argument: the verify loop retraces the sign loop's challenges, and at the
signer's index the fixed-up `s[r]` reproduces the nonce commitments. -/
theorem clsag_chain_closes (ring : List (Gp.Point × Gp.Point)) (I pseudoOut Dorig : Gp.Point)
    (msg : Bytes) (s : List Scalar) (r : Nat) (x δ nonce : Scalar) (PH : Gp.Point)
    (hr : r < ring.length)
    (hlen : s.length = ring.length)
    (hPH : PH = Gp.hash_to_point (Gp.compress (ring.getD r (0, 0)).1))
    (hP : (ring.getD r (0, 0)).1 = smulP Gp x Gp.G)
    (hCr : (ring.getD r (0, 0)).2 - pseudoOut = smulP Gp δ Gp.G)
    (hI : I = smulP Gp x PH)
    (hD : Dorig = smulP Gp δ PH)
    (c0 cs1 cs2 : Scalar)
    (hc0 : c0 = coreSignC0 Gp ring I Dorig pseudoOut msg (smulP Gp nonce Gp.G) (smulP Gp nonce PH))
    (hcs : (cs1, cs2) = coreSpec Gp ring I pseudoOut Dorig s msg (c0, c0)
        (List.range' (r + 1) (ring.length - 1 - r) ++ List.range r))
    (s' : List Scalar)
    (hs' : s' = s.set r (nonce - ((cs1 * coreMuP Gp ring I Dorig pseudoOut) * x
        + (cs1 * coreMuC Gp ring I Dorig pseudoOut) * δ))) :
    (coreSpec Gp ring I pseudoOut Dorig s' msg (cs2, cs2) (List.range ring.length)).2 = cs2 := by
  have hn : 0 < ring.length := Nat.lt_of_le_of_lt (Nat.zero_le r) hr
  -- abbreviations
  set n := ring.length with hn_def
  set P := ring.map Prod.fst with hPdef
  set C := ring.map fun member => member.2 - pseudoOut with hCdef
  set muP := coreMuP Gp ring I Dorig pseudoOut with hmuP
  set muC := coreMuC Gp ring I Dorig pseudoOut with hmuC
  set TR := coreTR Gp ring I Dorig pseudoOut msg with hTRdef
  set fp := List.range' (r + 1) (n - 1 - r) with hfp
  -- membership facts
  have hfp_ne : ∀ i ∈ fp, i ≠ r := by
    intro i hi
    have := List.mem_range'_1.mp hi
    omega
  have hfp_no_closer : ∀ i ∈ List.range r, i ≠ n - 1 → True := fun _ _ _ => trivial
  have hsp_ne : ∀ i ∈ List.range r, i ≠ r := by
    intro i hi
    have := List.mem_range.mp hi
    omega
  have hsp_no : (n - 1) ∉ List.range r := by
    intro hmem
    have := List.mem_range.mp hmem
    omega
  -- cs1 and cs2 through chainOf
  have hcs1 : cs1 = chainOf Gp P C I Dorig s muP muC TR c0 (fp ++ List.range r) := by
    have h1 := congrArg Prod.fst hcs
    simp only at h1
    rw [h1, coreSpec]
    exact capFold_fst Gp P C I Dorig s muP muC TR n (c0, c0) _
  have hcs2 : cs2 = chainOf Gp P C I Dorig s muP muC TR c0 fp := by
    have h2 := congrArg Prod.snd hcs
    simp only at h2
    rw [h2, coreSpec, capFold_append]
    rcases Nat.lt_or_ge r (n - 1) with hlt | hge
    · -- fp ends exactly at the closer n - 1
      have hfp_split : fp = List.range' (r + 1) (n - 2 - r) ++ [n - 1] := by
        rw [hfp]
        have := range'_concat_one (r + 1) (n - 2 - r)
        rw [show r + 1 + (n - 2 - r) = n - 1 from by omega] at this
        rw [show n - 1 - r = n - 2 - r + 1 from by omega, this]
      rw [capFold_snd_of_not_mem Gp P C I Dorig s muP muC TR n _ _ hsp_no]
      rw [hfp_split, capFold_snd_concat_closer]
    · -- r = n - 1 : fp is empty, c1 is never recaptured
      have hfp_nil : fp = [] := by
        rw [hfp, show n - 1 - r = 0 from by omega]
        exact List.range'_zero
      rw [capFold_snd_of_not_mem Gp P C I Dorig s muP muC TR n _ _ hsp_no, hfp_nil]
      rfl
  -- replacing `s[r]` is invisible to chains that avoid `r`
  have hchain_sr : ∀ (c : Scalar) (is : List Nat), (∀ i ∈ is, i ≠ r) →
      chainOf Gp P C I Dorig s' muP muC TR c is = chainOf Gp P C I Dorig s muP muC TR c is := by
    intro c is h
    rw [hs']
    exact chainOf_set_ne Gp P C I Dorig s muP muC TR r _ is h c
  -- the value entering the signer's index in the verify chain is the sign
  -- loop's final challenge
  have hcf : chainOf Gp P C I Dorig s' muP muC TR cs2 (List.range r) = cs1 := by
    rw [hchain_sr _ _ hsp_ne, hcs2, ← chainOf_append, hcs1]
  -- the signer's step reproduces the initial challenge
  have hgetD_P : P.getD r 0 = (ring.getD r (0, 0)).1 := getD_map_lemma ring Prod.fst r 0 (0, 0) hr
  have hgetD_C : C.getD r 0 = (ring.getD r (0, 0)).2 - pseudoOut :=
    getD_map_lemma ring _ r 0 (0, 0) hr
  have hs_len : r < s.length := by omega
  have hgetD_s' : s'.getD r 0 = nonce - ((cs1 * muP) * x + (cs1 * muC) * δ) := by
    rw [hs']
    exact getD_set_self_lemma s _ r 0 hs_len
  have hkey : hashStep Gp P C I Dorig s' muP muC TR cs1 r = c0 := by
    rw [hashStep_closes Gp P C I Dorig s' muP muC TR r x δ nonce cs1 PH
      (by rw [hPH, hgetD_P]) (by rw [hPH]; exact Gp.hash_to_point_torsion _)
      (by rw [hgetD_P, hP]) (by rw [hgetD_C, hCr]) hI hD hgetD_s', hc0]
    rfl
  -- assemble: the verify chain is range r, then r, then fp
  have hrange_concat : List.range n = List.range (n - 1) ++ [n - 1] := by
    conv_lhs => rw [show n = (n - 1) + 1 from by omega]
    exact List.range_succ (n - 1)
  have hcloser_goal : (coreSpec Gp ring I pseudoOut Dorig s' msg (cs2, cs2) (List.range n)).2
      = chainOf Gp P C I Dorig s' muP muC TR cs2 (List.range n) := by
    rw [hrange_concat, coreSpec]
    exact capFold_snd_concat_closer Gp P C I Dorig s' muP muC TR n (cs2, cs2) (List.range (n - 1))
  have hsplit : List.range n = List.range (r + 1) ++ fp := by
    have h1 := List.range'_append 0 (r + 1) (n - 1 - r) 1
    simp only [one_mul, Nat.zero_add] at h1
    rw [show n - 1 - r + (r + 1) = n from by omega] at h1
    rw [List.range_eq_range', List.range_eq_range', hfp, ← h1]
  have hr1 : List.range (r + 1) = List.range r ++ [r] := List.range_succ r
  rw [hcloser_goal, hsplit, chainOf_append, hr1, chainOf_append, hcf]
  have hsingle : chainOf Gp P C I Dorig s' muP muC TR cs1 [r]
      = hashStep Gp P C I Dorig s' muP muC TR cs1 r := rfl
  rw [hsingle, hkey, hchain_sr c0 fp hfp_ne, ← hcs2]

/-- `Clsag::verify` succeeds once each of its checks does. -/
theorem verify_ok_of (cl : Clsag Gp) (ring : List (Gp.Point × Gp.Point)) (I pseudoOut : Gp.Point)
    (msg : Bytes)
    (h1 : ring ≠ [])
    (h2 : ring.length = cl.s.length)
    (h3 : I ≠ 0) (h4 : Gp.natSmul ell I = 0)
    (h5 : Gp.natSmul 8 cl.D ≠ 0)
    (h6 : (Clsag.core Gp ring I pseudoOut msg (Gp.natSmul 8 cl.D) cl.s (.verifyMode cl.c1)).2
        = cl.c1) :
    Clsag.verify Gp cl ring I pseudoOut msg = .ok () := by
  rw [Clsag.verify]
  rw [if_neg (fun h => h1 (List.isEmpty_iff.mp h))]
  rw [if_neg (fun h => h h2)]
  rw [if_neg (fun h => h.elim h3 (fun hne => hne h4))]
  simp only []
  rw [if_neg h5, if_neg (fun h => h h6)]

/-- One input of `Clsag::sign`: the signature `sign_core` produces, once its
`s[r]` is filled in, verifies against the ring, the key image and the returned
pseudo-output — provided the private key opens `ring[r]`, the key image is the
true image, the commitment opening matches, and the mask delta is non-zero
(`D ≠ identity`). -/
theorem clsag_sign_core_verifies (rng : ClsagRng) (x nonce mask : Scalar) (I : Gp.Point)
    (input : ClsagInput Gp) (msg : Bytes) (hmsg : msg.length = 32)
    (hr : input.decoys.signerIndex < input.decoys.ring.length)
    (hP : (input.decoys.ring.getD input.decoys.signerIndex (0, 0)).1 = smulP Gp x Gp.G)
    (hC : (input.decoys.ring.getD input.decoys.signerIndex (0, 0)).2
        = Commitment.calculate Gp input.commitment)
    (hI : I = smulP Gp x (Gp.hash_to_point (Gp.compress
        (input.decoys.ring.getD input.decoys.signerIndex (0, 0)).1)))
    (hI0 : I ≠ 0)
    (hD0 : smulP Gp (input.commitment.mask - mask) (Gp.hash_to_point (Gp.compress
        (input.decoys.ring.getD input.decoys.signerIndex (0, 0)).1)) ≠ 0)
    (A AH : Gp.Point)
    (hA : A = smulP Gp nonce Gp.G)
    (hAH : AH = smulP Gp nonce (Gp.hash_to_point (Gp.compress
        (input.decoys.ring.getD input.decoys.signerIndex (0, 0)).1)))
    (sc : ClsagSignCore Gp) (hsc : sc = (Clsag.sign_core Gp rng I input mask msg A AH).1)
    (cl : Clsag Gp)
    (hcl : cl = { sc.incomplete_clsag with
        s := sc.incomplete_clsag.s.set input.decoys.signerIndex
          (nonce - (sc.key_challenge * x + sc.challenged_mask)) }) :
    Clsag.verify Gp cl input.decoys.ring I sc.pseudo_out msg = .ok () := by
  obtain ⟨commitment, decoys⟩ := input
  obtain ⟨ring, r⟩ := decoys
  simp only at hr hP hC hI hD0 hAH hsc hcl
  set PH := Gp.hash_to_point (Gp.compress (ring.getD r (0, 0)).1) with hPHdef
  set pseudoOut := Commitment.calculate Gp ⟨mask, commitment.amount⟩ with hpo
  set Dorig := smulP Gp (commitment.mask - mask) PH with hDor
  set s0 : List Scalar := (List.range ring.length).map fun i => rng.stream (rng.idx + i)
    with hs0
  have hDor_tf : PTorsionFree Gp Dorig := by
    rw [hDor]
    exact ptf_smulP Gp _ (Gp.hash_to_point_torsion _)
  have hcore := core_sign_eq Gp ring I pseudoOut msg Dorig s0 r A AH hr hmsg
  have hsc2 : sc = ⟨⟨smulP Gp INV_EIGHT Dorig, s0,
      (coreSpec Gp ring I pseudoOut Dorig s0 msg
        (coreSignC0 Gp ring I Dorig pseudoOut msg A AH,
         coreSignC0 Gp ring I Dorig pseudoOut msg A AH)
        (List.range' (r + 1) (ring.length - 1 - r) ++ List.range r)).2⟩,
      pseudoOut,
      (coreSpec Gp ring I pseudoOut Dorig s0 msg
        (coreSignC0 Gp ring I Dorig pseudoOut msg A AH,
         coreSignC0 Gp ring I Dorig pseudoOut msg A AH)
        (List.range' (r + 1) (ring.length - 1 - r) ++ List.range r)).1
        * coreMuP Gp ring I Dorig pseudoOut,
      ((coreSpec Gp ring I pseudoOut Dorig s0 msg
        (coreSignC0 Gp ring I Dorig pseudoOut msg A AH,
         coreSignC0 Gp ring I Dorig pseudoOut msg A AH)
        (List.range' (r + 1) (ring.length - 1 - r) ++ List.range r)).1
        * coreMuC Gp ring I Dorig pseudoOut) * (commitment.mask - mask)⟩ := by
    rw [hsc]
    simp only [Clsag.sign_core, drawScalars, ClsagRng.advance]
    rw [hcore]
  set c0 := coreSignC0 Gp ring I Dorig pseudoOut msg A AH with hc0def
  set CS := coreSpec Gp ring I pseudoOut Dorig s0 msg (c0, c0)
    (List.range' (r + 1) (ring.length - 1 - r) ++ List.range r) with hCSdef
  have hs0len : s0.length = ring.length := by simp [hs0]
  rw [hsc2] at hcl
  simp only [] at hcl
  have hCr : (ring.getD r (0, 0)).2 - pseudoOut = smulP Gp (commitment.mask - mask) Gp.G := by
    rw [hC, hpo]
    simp only [Commitment.calculate]
    rw [smulP_sub Gp Gp.G_torsion]
    abel
  have hsc_po : sc.pseudo_out = pseudoOut := by rw [hsc2]
  show Clsag.verify Gp cl ring I sc.pseudo_out msg = .ok ()
  rw [hcl, hsc_po]
  apply verify_ok_of
  · intro h
    rw [h] at hr
    exact absurd hr (by simp)
  · simp only [List.length_set, hs0len]
  · exact hI0
  · rw [hI, Gp.natSmul_eq]
    exact ptf_smulP Gp x (Gp.hash_to_point_torsion _)
  · simp only []
    rw [natSmul_eight_smulP_inv_eight Gp hDor_tf]
    rw [hDor]
    exact hD0
  · simp only []
    rw [natSmul_eight_smulP_inv_eight Gp hDor_tf]
    rw [core_verify_eq Gp ring I pseudoOut msg Dorig _ _ hmsg]
    exact clsag_chain_closes Gp ring I pseudoOut Dorig msg s0 r x (commitment.mask - mask)
      nonce PH hr hs0len hPHdef hP hCr hI hDor c0 CS.1 CS.2
      (by rw [hc0def, hA, hAH]) (by rw [hCSdef]) _ rfl

/-- Default element for indexing the inputs of `Clsag::sign`. -/
def dfltTriple : Scalar × Gp.Point × ClsagInput Gp := (0, 0, ⟨⟨0, 0⟩, ⟨[], 0⟩⟩)

/-- Default element for indexing the outputs of `Clsag::sign`. -/
def dfltOut : Clsag Gp × Gp.Point := (⟨0, [], 0⟩, 0)

/-- A well-formed input to `Clsag::sign`: the signer index is in range, the
private key opens the ring member, the commitment opening matches it, and the
key image is the (non-identity) image `x·H_p(P_r)` of the signer's key. -/
def ValidClsagSignInput (t : Scalar × Gp.Point × ClsagInput Gp) : Prop :=
  t.2.2.decoys.signerIndex < t.2.2.decoys.ring.length ∧
  (t.2.2.decoys.ring.getD t.2.2.decoys.signerIndex (0, 0)).1 = smulP Gp t.1 Gp.G ∧
  (t.2.2.decoys.ring.getD t.2.2.decoys.signerIndex (0, 0)).2
    = Commitment.calculate Gp t.2.2.commitment ∧
  t.2.1 = smulP Gp t.1 (Gp.hash_to_point (Gp.compress
    (t.2.2.decoys.ring.getD t.2.2.decoys.signerIndex (0, 0)).1)) ∧
  t.2.1 ≠ 0

instance (Gp : ClsagGroup) (t : Scalar × Gp.Point × ClsagInput Gp) :
    Decidable (ValidClsagSignInput Gp t) := by
  unfold ValidClsagSignInput
  infer_instance

theorem clsagSignLoop_length (msg : Bytes) (sumOutputs : Scalar) :
    ∀ (inputs : List (Scalar × Gp.Point × ClsagInput Gp)) (rng : ClsagRng)
      (sumPseudoOuts : Scalar),
    (clsagSignLoop Gp rng sumOutputs sumPseudoOuts msg inputs).length = inputs.length := by
  intro inputs
  induction inputs with
  | nil => intro rng spo; rfl
  | cons t rest ih =>
    intro rng spo
    obtain ⟨x, I, input⟩ := t
    simp only [clsagSignLoop, List.length_cons]
    rw [ih]

/-- Every signature `clsagSignLoop` produces verifies, provided its inputs are
well-formed and the cofactor-cleared `D` of the produced signature is not the
identity (equivalently, the pseudo-output mask differs from the true
commitment mask). -/
theorem clsagSignLoop_verifies (msg : Bytes) (hmsg : msg.length = 32) (sumOutputs : Scalar) :
    ∀ (inputs : List (Scalar × Gp.Point × ClsagInput Gp)) (rng : ClsagRng)
      (sumPseudoOuts : Scalar),
    (∀ t ∈ inputs, ValidClsagSignInput Gp t) →
    ∀ i, i < inputs.length →
    Gp.natSmul 8 (((clsagSignLoop Gp rng sumOutputs sumPseudoOuts msg inputs).getD i
      (dfltOut Gp)).1.D) ≠ 0 →
    Clsag.verify Gp
      ((clsagSignLoop Gp rng sumOutputs sumPseudoOuts msg inputs).getD i (dfltOut Gp)).1
      (inputs.getD i (dfltTriple Gp)).2.2.decoys.ring
      (inputs.getD i (dfltTriple Gp)).2.1
      ((clsagSignLoop Gp rng sumOutputs sumPseudoOuts msg inputs).getD i (dfltOut Gp)).2 msg
      = .ok () := by
  intro inputs
  induction inputs with
  | nil =>
    intro rng spo _ i hi
    exact absurd hi (by simp)
  | cons t rest ih =>
    intro rng spo hvalid i hi hD
    obtain ⟨x, I, input⟩ := t
    match i with
    | Nat.succ j =>
      have hj : j < rest.length := by simpa using hi
      simp only [clsagSignLoop, ClsagRng.next, List.getD_cons_succ] at hD ⊢
      exact ih _ _ (fun t ht => hvalid t (List.mem_cons_of_mem _ ht)) j hj hD
    | 0 =>
      have hv := hvalid _ (List.mem_cons_self _ _)
      obtain ⟨hr, hP, hC, hI, hI0⟩ := hv
      simp only at hr hP hC hI hI0
      simp only [clsagSignLoop, ClsagRng.next, List.getD_cons_zero] at hD ⊢
      have hDor_tf : PTorsionFree Gp (smulP Gp (input.commitment.mask -
          (if rest.isEmpty then sumOutputs - spo else rng.stream rng.idx))
          (Gp.hash_to_point (Gp.compress
            (input.decoys.ring.getD input.decoys.signerIndex (0, 0)).1))) :=
        ptf_smulP Gp _ (Gp.hash_to_point_torsion _)
      have hD_D : ((Clsag.sign_core Gp ⟨rng.stream, rng.idx + 1 + 1⟩ I input
          (if rest.isEmpty then sumOutputs - spo else rng.stream rng.idx) msg
          (smulP Gp (rng.stream (rng.idx + 1)) Gp.G)
          (smulP Gp (rng.stream (rng.idx + 1)) (Gp.hash_to_point (Gp.compress
            (input.decoys.ring.getD input.decoys.signerIndex (0, 0)).1)))).1).incomplete_clsag.D
          = smulP Gp INV_EIGHT (smulP Gp (input.commitment.mask -
              (if rest.isEmpty then sumOutputs - spo else rng.stream rng.idx))
              (Gp.hash_to_point (Gp.compress
                (input.decoys.ring.getD input.decoys.signerIndex (0, 0)).1))) := by
        simp only [Clsag.sign_core, Clsag.core, drawScalars]
      refine clsag_sign_core_verifies Gp ⟨rng.stream, rng.idx + 1 + 1⟩ x
        (rng.stream (rng.idx + 1))
        (if rest.isEmpty then sumOutputs - spo else rng.stream rng.idx) I input msg hmsg
        hr hP hC hI hI0 ?_ _ _ rfl rfl _ rfl _ rfl
      intro hzero
      apply hD
      rw [hD_D, natSmul_eight_smulP_inv_eight Gp hDor_tf, hzero]

/-! ### A concrete executable instance of `ClsagGroup`

`ZMod 8 × ZMod ell` realizes the group shape of the Edwards curve (cofactor 8
times a prime-order part) with executable arithmetic; hash functions are
simple byte folds.  Used to evaluate the CLSAG code on concrete inputs. -/

/-- Componentwise executable scalar multiplication on `ZMod 8 × ZMod ell`. -/
def mockNatSmul (n : Nat) (P : ZMod 8 × ZMod ell) : ZMod 8 × ZMod ell :=
  ((n : ZMod 8) * P.1, (n : ZMod ell) * P.2)

theorem mockNatSmul_eq (n : Nat) (P : ZMod 8 × ZMod ell) : mockNatSmul n P = n • P := by
  rw [mockNatSmul, Prod.ext_iff]
  constructor
  · rw [show (n • P).1 = n • P.1 from rfl, nsmul_eq_mul]
  · rw [show (n • P).2 = n • P.2 from rfl, nsmul_eq_mul]

/-- An executable stand-in for `keccak256_to_scalar`: a byte fold into `ZMod ell`. -/
def mockHashToScalar (bs : Bytes) : Scalar :=
  ((bs.foldl (fun a b => (a * 259 + b + 2) % ell) 11 : Nat) : Scalar)

/-- An executable stand-in for `hash_to_point`, landing in the prime-order part. -/
def mockHashToPoint (bs : Bytes) : ZMod 8 × ZMod ell :=
  (0, ((bs.foldl (fun a b => (a * 257 + b + 1) % ell) 7 : Nat) : ZMod ell))

theorem zmod_ell_torsion (y : ZMod ell) : ell • y = 0 := by
  rw [nsmul_eq_mul, ZMod.natCast_self, zero_mul]

theorem mock_pair_torsion (y : ZMod ell) : ell • ((0, y) : ZMod 8 × ZMod ell) = (0, 0) := by
  rw [Prod.ext_iff, show (ell • ((0, y) : ZMod 8 × ZMod ell)).1 = ell • (0 : ZMod 8) from rfl,
    show (ell • ((0, y) : ZMod 8 × ZMod ell)).2 = ell • y from rfl]
  exact ⟨smul_zero _, zmod_ell_torsion y⟩

/-- The concrete `ClsagGroup` instance. -/
def mockGroup : ClsagGroup where
  Point := ZMod 8 × ZMod ell
  natSmul := mockNatSmul
  G := (0, 1)
  Hgen := (0, 2)
  compress := fun P => toLeBytes 32 P.2.val
  hash_to_point := mockHashToPoint
  keccak256_to_scalar := mockHashToScalar
  natSmul_eq := mockNatSmul_eq
  compress_length := fun _ => toLeBytes_length 32 _
  G_torsion := mock_pair_torsion 1
  Hgen_torsion := mock_pair_torsion 2
  hash_to_point_torsion := fun _ => mock_pair_torsion _

/-! Concrete demonstration inputs over `mockGroup`. -/

/-- A deterministic scalar supply. -/
def clsagDemoRng : ClsagRng := ⟨fun i => ((i + 3 : Nat) : Scalar), 0⟩

/-- A demonstration commitment (mask 5, amount 100). -/
def clsagDemoCommit : Commitment := ⟨5, 100⟩

/-- The signer's public key `3·G`. -/
def clsagDemoPr : mockGroup.Point := smulP mockGroup 3 mockGroup.G

/-- A well-formed single signing input: a two-member ring whose second member
is the signer (key 3, key image `3·H_p(P)`), commitment opening matching. -/
def clsagDemoTriple : Scalar × mockGroup.Point × ClsagInput mockGroup :=
  (3, smulP mockGroup 3 (mockGroup.hash_to_point (mockGroup.compress clsagDemoPr)),
   ⟨clsagDemoCommit,
    ⟨[((0, 9), (0, 77)), (clsagDemoPr, Commitment.calculate mockGroup clsagDemoCommit)], 1⟩⟩)

/-- A 32-byte message. -/
def clsagDemoMsg : Bytes := List.replicate 32 66

/-- C1 (amended).  For every ring, signer index `r < n`, commitment opening
matching `ring[r]`'s commitment, output-mask sum and 32-byte message, each
signature `Clsag::sign` produces — **whose cofactor-cleared `D` is not the
identity**, equivalently whose derived pseudo-output mask differs from the
true commitment mask — verifies, together with its returned pseudo-output,
under `Clsag::verify`.  (Without the `D` proviso the claim fails:
`C1_counterexample`.) -/
theorem C1_clsag_sign_roundtrip (Gp : ClsagGroup) (rng : ClsagRng)
    (inputs : List (Scalar × Gp.Point × ClsagInput Gp)) (sum_outputs : Scalar) (msg : Bytes)
    (hmsg : msg.length = 32)
    (hvalid : ∀ t ∈ inputs, ValidClsagSignInput Gp t)
    (i : Nat) (hi : i < inputs.length)
    (hD : Gp.natSmul 8
      (((Clsag.sign Gp rng inputs sum_outputs msg).getD i (dfltOut Gp)).1.D) ≠ 0) :
    Clsag.verify Gp ((Clsag.sign Gp rng inputs sum_outputs msg).getD i (dfltOut Gp)).1
      (inputs.getD i (dfltTriple Gp)).2.2.decoys.ring
      (inputs.getD i (dfltTriple Gp)).2.1
      ((Clsag.sign Gp rng inputs sum_outputs msg).getD i (dfltOut Gp)).2 msg
      = .ok () :=
  clsagSignLoop_verifies Gp msg hmsg sum_outputs inputs rng 0 hvalid i hi hD

set_option maxRecDepth 1000000 in
/-- C1, as stated, is false on the code: with a single input whose output-mask
sum equals the input commitment's mask (both 5 here), `Clsag::sign` produces a
signature whose `D` is the identity, and `Clsag::verify` rejects it with
`InvalidD` — even though the ring (n = 2), signer index, commitment opening,
key image and 32-byte message all satisfy the claim's preconditions. -/
theorem C1_counterexample :
    (∀ t ∈ [clsagDemoTriple], ValidClsagSignInput mockGroup t) ∧
    clsagDemoMsg.length = 32 ∧
    Clsag.verify mockGroup
      ((Clsag.sign mockGroup clsagDemoRng [clsagDemoTriple] 5 clsagDemoMsg).getD 0
        (dfltOut mockGroup)).1
      clsagDemoTriple.2.2.decoys.ring clsagDemoTriple.2.1
      ((Clsag.sign mockGroup clsagDemoRng [clsagDemoTriple] 5 clsagDemoMsg).getD 0
        (dfltOut mockGroup)).2
      clsagDemoMsg = .error .InvalidD :=
  ⟨by decide, by decide, by decide⟩

set_option maxRecDepth 1000000 in
/-- The amended C1 at a concrete input: all hypotheses hold and the produced
signature verifies. -/
theorem C1_witness :
    ((∀ t ∈ [clsagDemoTriple], ValidClsagSignInput mockGroup t) ∧
      clsagDemoMsg.length = 32 ∧
      mockGroup.natSmul 8
        (((Clsag.sign mockGroup clsagDemoRng [clsagDemoTriple] 12 clsagDemoMsg).getD 0
          (dfltOut mockGroup)).1.D) ≠ 0) ∧
    Clsag.verify mockGroup
      ((Clsag.sign mockGroup clsagDemoRng [clsagDemoTriple] 12 clsagDemoMsg).getD 0
        (dfltOut mockGroup)).1
      clsagDemoTriple.2.2.decoys.ring clsagDemoTriple.2.1
      ((Clsag.sign mockGroup clsagDemoRng [clsagDemoTriple] 12 clsagDemoMsg).getD 0
        (dfltOut mockGroup)).2
      clsagDemoMsg = .ok () :=
  ⟨⟨by decide, by decide, by decide⟩,
    C1_clsag_sign_roundtrip mockGroup clsagDemoRng [clsagDemoTriple] 12 clsagDemoMsg
      (by decide) (by decide) 0 (by decide) (by decide)⟩

/-- What `Clsag::verify = Ok` forces: every preliminary check passed. -/
theorem verify_ok_necessary (Gp : ClsagGroup) (sig : Clsag Gp)
    (ring : List (Gp.Point × Gp.Point)) (I pseudoOut : Gp.Point) (msg : Bytes)
    (hok : Clsag.verify Gp sig ring I pseudoOut msg = .ok ()) :
    ring ≠ [] ∧ ring.length = sig.s.length ∧ I ≠ 0 ∧ Gp.natSmul ell I = 0 ∧
      Gp.natSmul 8 sig.D ≠ 0 := by
  rw [Clsag.verify] at hok
  by_cases h1 : ring.isEmpty = true
  · rw [if_pos h1] at hok
    exact absurd hok (by simp)
  rw [if_neg h1] at hok
  by_cases h2 : ring.length ≠ sig.s.length
  · rw [if_pos h2] at hok
    exact absurd hok (by simp)
  rw [if_neg h2] at hok
  by_cases h3 : I = 0 ∨ Gp.natSmul ell I ≠ 0
  · rw [if_pos h3] at hok
    exact absurd hok (by simp)
  rw [if_neg h3] at hok
  simp only [] at hok
  by_cases h4 : Gp.natSmul 8 sig.D = 0
  · rw [if_pos h4] at hok
    exact absurd hok (by simp)
  push_neg at h2 h3
  exact ⟨fun hh => h1 (by rw [hh]; rfl), h2, h3.1, h3.2, h4⟩

/-- Once the preliminary checks pass, `Clsag::verify` is exactly the `c1`
recomputation test. -/
theorem verify_after_checks (Gp : ClsagGroup) (sig : Clsag Gp)
    (ring : List (Gp.Point × Gp.Point)) (I pseudoOut : Gp.Point) (msg : Bytes)
    (h1 : ring ≠ []) (h2 : ring.length = sig.s.length) (h3 : I ≠ 0)
    (h4 : Gp.natSmul ell I = 0) (h5 : Gp.natSmul 8 sig.D ≠ 0) :
    Clsag.verify Gp sig ring I pseudoOut msg
      = if (Clsag.core Gp ring I pseudoOut msg (Gp.natSmul 8 sig.D) sig.s
            (.verifyMode sig.c1)).2 ≠ sig.c1
        then .error .InvalidC1 else .ok () := by
  rw [Clsag.verify, if_neg (fun h => h1 (List.isEmpty_iff.mp h)), if_neg (fun h => h h2),
    if_neg (fun h => h.elim h3 (fun hne => hne h4))]
  simp only []
  rw [if_neg h5]

theorem verify_empty_ring (Gp : ClsagGroup) (I pseudoOut : Gp.Point) (msg : Bytes)
    (sig : Clsag Gp) : Clsag.verify Gp sig [] I pseudoOut msg = .error .InvalidRing := rfl

theorem verify_wrong_s_length (Gp : ClsagGroup) (ring : List (Gp.Point × Gp.Point))
    (I pseudoOut : Gp.Point) (msg : Bytes) (sig : Clsag Gp) (hne : ring ≠ [])
    (hlen : ring.length ≠ sig.s.length) :
    Clsag.verify Gp sig ring I pseudoOut msg = .error .InvalidS := by
  rw [Clsag.verify, if_neg (fun h => hne (List.isEmpty_iff.mp h)), if_pos hlen]

theorem verify_bad_image (Gp : ClsagGroup) (ring : List (Gp.Point × Gp.Point))
    (I pseudoOut : Gp.Point) (msg : Bytes) (sig : Clsag Gp) (hne : ring ≠ [])
    (hlen : ring.length = sig.s.length) (hbad : I = 0 ∨ Gp.natSmul ell I ≠ 0) :
    Clsag.verify Gp sig ring I pseudoOut msg = .error .InvalidImage := by
  rw [Clsag.verify, if_neg (fun h => hne (List.isEmpty_iff.mp h)), if_neg (fun h => h hlen),
    if_pos hbad]

theorem verify_bad_D (Gp : ClsagGroup) (ring : List (Gp.Point × Gp.Point))
    (I pseudoOut : Gp.Point) (msg : Bytes) (sig : Clsag Gp) (hne : ring ≠ [])
    (hlen : ring.length = sig.s.length) (hI0 : I ≠ 0) (hItor : Gp.natSmul ell I = 0)
    (hD8 : Gp.natSmul 8 sig.D = 0) :
    Clsag.verify Gp sig ring I pseudoOut msg = .error .InvalidD := by
  rw [Clsag.verify, if_neg (fun h => hne (List.isEmpty_iff.mp h)), if_neg (fun h => h hlen),
    if_neg (fun h => h.elim hI0 (fun hh => hh hItor))]
  simp only []
  rw [if_pos hD8]

/-- With a non-empty ring and matching `s` length, `Clsag::verify` can only
return `InvalidImage`, `InvalidD`, `InvalidC1` or `Ok`. -/
theorem verify_outcomes (Gp : ClsagGroup) (ring : List (Gp.Point × Gp.Point))
    (I pseudoOut : Gp.Point) (msg : Bytes) (sig : Clsag Gp) (hne : ring ≠ [])
    (hlen : ring.length = sig.s.length) :
    Clsag.verify Gp sig ring I pseudoOut msg = .error .InvalidImage ∨
    Clsag.verify Gp sig ring I pseudoOut msg = .error .InvalidD ∨
    Clsag.verify Gp sig ring I pseudoOut msg = .error .InvalidC1 ∨
    Clsag.verify Gp sig ring I pseudoOut msg = .ok () := by
  by_cases h3 : I = 0 ∨ Gp.natSmul ell I ≠ 0
  · exact Or.inl (verify_bad_image Gp ring I pseudoOut msg sig hne hlen h3)
  push_neg at h3
  by_cases h4 : Gp.natSmul 8 sig.D = 0
  · exact Or.inr (Or.inl (verify_bad_D Gp ring I pseudoOut msg sig hne hlen h3.1 h3.2 h4))
  rw [verify_after_checks Gp sig ring I pseudoOut msg hne hlen h3.1 h3.2 h4]
  by_cases hc : (Clsag.core Gp ring I pseudoOut msg (Gp.natSmul 8 sig.D) sig.s
      (.verifyMode sig.c1)).2 ≠ sig.c1
  · rw [if_pos hc]
    exact Or.inr (Or.inr (Or.inl rfl))
  · rw [if_neg hc]
    exact Or.inr (Or.inr (Or.inr rfl))

/-- C2: `Clsag::verify`'s failure taxonomy, in check order.
(a) An empty ring yields `InvalidRing`.
(b) An `s` vector whose length differs from the (non-empty) ring's yields
`InvalidS`.
(c) An identity or torsioned key image yields `InvalidImage`.
(d) A `D` whose multiplication by the cofactor 8 is the identity yields
`InvalidD`.
(e) Past those checks the outcome is exactly the `c1` recomputation test —
`InvalidC1` on mismatch, `Ok` otherwise.
(f) Hence mutating `s` or `c1` of a valid signature (its `D` and `s`-length
kept) can only produce `Ok` or `InvalidC1`; it produces `InvalidC1` exactly
when the recomputed chain misses the stored `c1`.
(g) No other error kind is ever returned: never `InvalidRingMember`, never
`InvalidCommitment`. -/
theorem C2_clsag_verify_error_taxonomy (Gp : ClsagGroup) :
    (∀ (I pseudoOut : Gp.Point) (msg : Bytes) (sig : Clsag Gp),
      Clsag.verify Gp sig [] I pseudoOut msg = .error .InvalidRing) ∧
    (∀ (ring : List (Gp.Point × Gp.Point)) (I pseudoOut : Gp.Point) (msg : Bytes)
        (sig : Clsag Gp), ring ≠ [] → ring.length ≠ sig.s.length →
      Clsag.verify Gp sig ring I pseudoOut msg = .error .InvalidS) ∧
    (∀ (ring : List (Gp.Point × Gp.Point)) (I pseudoOut : Gp.Point) (msg : Bytes)
        (sig : Clsag Gp), ring ≠ [] → ring.length = sig.s.length →
      (I = 0 ∨ Gp.natSmul ell I ≠ 0) →
      Clsag.verify Gp sig ring I pseudoOut msg = .error .InvalidImage) ∧
    (∀ (ring : List (Gp.Point × Gp.Point)) (I pseudoOut : Gp.Point) (msg : Bytes)
        (sig : Clsag Gp), ring ≠ [] → ring.length = sig.s.length →
      I ≠ 0 → Gp.natSmul ell I = 0 → Gp.natSmul 8 sig.D = 0 →
      Clsag.verify Gp sig ring I pseudoOut msg = .error .InvalidD) ∧
    (∀ (ring : List (Gp.Point × Gp.Point)) (I pseudoOut : Gp.Point) (msg : Bytes)
        (sig : Clsag Gp), ring ≠ [] → ring.length = sig.s.length →
      I ≠ 0 → Gp.natSmul ell I = 0 → Gp.natSmul 8 sig.D ≠ 0 →
      Clsag.verify Gp sig ring I pseudoOut msg
        = if (Clsag.core Gp ring I pseudoOut msg (Gp.natSmul 8 sig.D) sig.s
              (.verifyMode sig.c1)).2 ≠ sig.c1
          then .error .InvalidC1 else .ok ()) ∧
    (∀ (ring : List (Gp.Point × Gp.Point)) (I pseudoOut : Gp.Point) (msg : Bytes)
        (sig sig' : Clsag Gp),
      Clsag.verify Gp sig ring I pseudoOut msg = .ok () →
      sig'.D = sig.D → sig'.s.length = sig.s.length →
      Clsag.verify Gp sig' ring I pseudoOut msg = .ok () ∨
        Clsag.verify Gp sig' ring I pseudoOut msg = .error .InvalidC1) ∧
    (∀ (ring : List (Gp.Point × Gp.Point)) (I pseudoOut : Gp.Point) (msg : Bytes)
        (sig : Clsag Gp) (a b : Nat),
      Clsag.verify Gp sig ring I pseudoOut msg ≠ .error (.InvalidRingMember a b) ∧
      Clsag.verify Gp sig ring I pseudoOut msg ≠ .error .InvalidCommitment) := by
  refine ⟨fun I p m sig => verify_empty_ring Gp I p m sig,
    fun ring I p m sig => verify_wrong_s_length Gp ring I p m sig,
    fun ring I p m sig => verify_bad_image Gp ring I p m sig,
    fun ring I p m sig => verify_bad_D Gp ring I p m sig,
    fun ring I p m sig => verify_after_checks Gp sig ring I p m,
    ?_, ?_⟩
  · intro ring I p m sig sig' hok hDeq hslen
    obtain ⟨hne, hlen, hI0, hItor, hD5⟩ := verify_ok_necessary Gp sig ring I p m hok
    rw [verify_after_checks Gp sig' ring I p m hne (by rw [hlen, hslen]) hI0 hItor
      (by rw [hDeq]; exact hD5)]
    by_cases hc : (Clsag.core Gp ring I p m (Gp.natSmul 8 sig'.D) sig'.s
        (.verifyMode sig'.c1)).2 ≠ sig'.c1
    · right
      rw [if_pos hc]
    · left
      rw [if_neg hc]
  · intro ring I p m sig a b
    rcases ring with _ | ⟨mem, rest⟩
    · rw [verify_empty_ring]
      exact ⟨by simp, by simp⟩
    by_cases h2 : (mem :: rest).length ≠ sig.s.length
    · rw [verify_wrong_s_length Gp _ I p m sig (by simp) h2]
      exact ⟨by simp, by simp⟩
    push_neg at h2
    rcases verify_outcomes Gp (mem :: rest) I p m sig (by simp) h2 with h | h | h | h <;>
      rw [h] <;> exact ⟨by simp, by simp⟩

/-- C10: `Clsag::verify`'s only ring-size check is non-emptiness.
(a) For any non-empty ring whose length matches the signature's `s` — of any
size, 255-member bound included — `verify` never returns `InvalidRing`,
`InvalidRingMember` or `InvalidCommitment`.
(b) `ClsagInput::new` returns `InvalidRing` exactly for rings of more than
255 members.
(c) In particular an empty ring at `ClsagInput::new` yields
`InvalidRingMember(signer_index, 0)`, not `InvalidRing`. -/
theorem C10_ring_size_checks (Gp : ClsagGroup) :
    (∀ (ring : List (Gp.Point × Gp.Point)) (I pseudoOut : Gp.Point) (msg : Bytes)
        (sig : Clsag Gp), ring ≠ [] → ring.length = sig.s.length →
      Clsag.verify Gp sig ring I pseudoOut msg ≠ .error .InvalidRing ∧
      (∀ a b : Nat,
        Clsag.verify Gp sig ring I pseudoOut msg ≠ .error (.InvalidRingMember a b)) ∧
      Clsag.verify Gp sig ring I pseudoOut msg ≠ .error .InvalidCommitment) ∧
    (∀ (commitment : Commitment) (decoys : Decoys Gp),
      ClsagInput.new Gp commitment decoys = .error .InvalidRing ↔ 255 < decoys.len) ∧
    (∀ (commitment : Commitment) (idx : Nat),
      ClsagInput.new Gp commitment ⟨[], idx⟩ = .error (.InvalidRingMember idx 0)) := by
  refine ⟨?_, ?_, ?_⟩
  · intro ring I p m sig hne hlen
    rcases verify_outcomes Gp ring I p m sig hne hlen with h | h | h | h <;> rw [h] <;>
      exact ⟨by simp, fun a b => by simp, by simp⟩
  · intro commitment decoys
    constructor
    · intro h
      by_contra hgt
      rw [ClsagInput.new, if_neg (by omega)] at h
      by_cases h2 : decoys.signerIndex ≥ decoys.len
      · rw [if_pos h2] at h
        exact ClsagError.noConfusion (Except.error.inj h)
      rw [if_neg h2] at h
      by_cases h3 : (decoys.ring.getD decoys.signerIndex (0, 0)).2
          ≠ Commitment.calculate Gp commitment
      · rw [if_pos h3] at h
        exact ClsagError.noConfusion (Except.error.inj h)
      · rw [if_neg h3] at h
        exact Except.noConfusion h
    · intro h
      rw [ClsagInput.new, if_pos h]
  · intro commitment idx
    rw [ClsagInput.new]
    rw [if_neg (by simp [Decoys.len]), if_pos (by simp [Decoys.len])]
    simp [Decoys.len]

/-- A one-member demonstration ring. -/
def c2Ring : List (mockGroup.Point × mockGroup.Point) := [((0, 1), (0, 2))]

/-- A 32-byte demonstration message. -/
def c2Msg : Bytes := List.replicate 32 1

/-- A torsioned (non-`ell`-torsion) point of the mock group. -/
def c2Torsioned : mockGroup.Point := (1, 1)

/-- A prime-order, non-identity point of the mock group. -/
def c2Good : mockGroup.Point := (0, 1)

/-- An 8-torsion, non-identity point (`8·D = identity`). -/
def c2EightTorsion : mockGroup.Point := (1, 0)

/-- A signature record with a one-element `s`. -/
def c2Sig1 : Clsag mockGroup := ⟨c2Good, [3], 7⟩

/-- A signature record with a two-element `s`. -/
def c2Sig2 : Clsag mockGroup := ⟨c2Good, [3, 4], 7⟩

/-- A signature record whose `D` is 8-torsion. -/
def c2SigBadD : Clsag mockGroup := ⟨c2EightTorsion, [3], 7⟩

set_option maxRecDepth 400000 in
/-- The C2 taxonomy at concrete inputs: each error raised as described. -/
theorem C2_witness :
    Clsag.verify mockGroup c2Sig1 [] 0 0 [] = .error .InvalidRing ∧
    Clsag.verify mockGroup c2Sig2 c2Ring 0 0 c2Msg = .error .InvalidS ∧
    Clsag.verify mockGroup c2Sig1 c2Ring c2Torsioned 0 c2Msg = .error .InvalidImage ∧
    Clsag.verify mockGroup c2SigBadD c2Ring c2Good 0 c2Msg = .error .InvalidD ∧
    Clsag.verify mockGroup c2Sig1 c2Ring c2Good 0 c2Msg = .error .InvalidC1 ∧
    (∀ a b : Nat, Clsag.verify mockGroup c2Sig1 c2Ring c2Good 0 c2Msg
      ≠ .error (.InvalidRingMember a b)) :=
  ⟨(C2_clsag_verify_error_taxonomy mockGroup).1 0 0 [] c2Sig1,
   (C2_clsag_verify_error_taxonomy mockGroup).2.1 c2Ring 0 0 c2Msg c2Sig2
     (by decide) (by decide),
   (C2_clsag_verify_error_taxonomy mockGroup).2.2.1 c2Ring c2Torsioned 0 c2Msg c2Sig1
     (by decide) (by decide) (by decide),
   (C2_clsag_verify_error_taxonomy mockGroup).2.2.2.1 c2Ring c2Good 0 c2Msg c2SigBadD
     (by decide) (by decide) (by decide) (by decide) (by decide),
   ((C2_clsag_verify_error_taxonomy mockGroup).2.2.2.2.1 c2Ring c2Good 0 c2Msg
     c2Sig1 (by decide) (by decide) (by decide) (by decide) (by decide)).trans
     (by decide),
   fun a b => ((C2_clsag_verify_error_taxonomy mockGroup).2.2.2.2.2.2 c2Ring c2Good 0 c2Msg
     c2Sig1 a b).1⟩

/-- A ring of 300 members (beyond the 255 input bound). -/
def c10BigRing : List (mockGroup.Point × mockGroup.Point) :=
  List.replicate 300 ((0, 1), (0, 2))

/-- A signature record with a 300-element `s`. -/
def c10BigSig : Clsag mockGroup := ⟨c2Good, List.replicate 300 3, 7⟩

set_option maxRecDepth 400000 in
/-- C10 at concrete inputs: a 300-member ring passes `verify`'s size checks;
`ClsagInput::new` rejects a 300-member ring as `InvalidRing` and an empty
ring as `InvalidRingMember(7, 0)`. -/
theorem C10_witness :
    (Clsag.verify mockGroup c10BigSig c10BigRing c2Good 0 c2Msg
        ≠ .error .InvalidRing ∧
      (∀ a b : Nat, Clsag.verify mockGroup c10BigSig c10BigRing c2Good 0 c2Msg
        ≠ .error (.InvalidRingMember a b)) ∧
      Clsag.verify mockGroup c10BigSig c10BigRing c2Good 0 c2Msg
        ≠ .error .InvalidCommitment) ∧
    ClsagInput.new mockGroup clsagDemoCommit ⟨c10BigRing, 0⟩ = .error .InvalidRing ∧
    ClsagInput.new mockGroup clsagDemoCommit ⟨[], 7⟩ = .error (.InvalidRingMember 7 0) :=
  ⟨(C10_ring_size_checks mockGroup).1 c10BigRing c2Good 0 c2Msg c10BigSig
      (by decide) (by decide),
   ((C10_ring_size_checks mockGroup).2.1 clsagDemoCommit ⟨c10BigRing, 0⟩).mpr (by decide),
   (C10_ring_size_checks mockGroup).2.2 clsagDemoCommit 7⟩

/-! ## Message taxonomy and intents (processor/messages/src/lib.rs)

Sessions are `u32`, participants `u16`, block numbers `u64`; all are
embedded as `Nat` with explicit bounds where injectivity needs them.
SCALE/borsh encodings of these flat values coincide: little-endian
fixed-width bytes; an enum is its variant index byte followed by the
variant's fields; `[u8; 32]` is its raw bytes. -/

/-- `messages::sign::VariantSignId`. -/
inductive VariantSignId where
  | Cosign (blockNumber : Nat)
  | Batch (hash : Bytes)
  | SlashReport
  | Transaction (txid : Bytes)
deriving DecidableEq

/-- The SCALE encoding of a `VariantSignId`. -/
def VariantSignId.scaleEncode : VariantSignId → Bytes
  | .Cosign blockNumber => 0 :: toLeBytes 8 blockNumber
  | .Batch hash => 1 :: hash
  | .SlashReport => [2]
  | .Transaction txid => 3 :: txid

/-- `messages::sign::SignId`. -/
structure SignId where
  session : Nat
  id : VariantSignId
  attempt : Nat
deriving DecidableEq

/-- The SCALE encoding of a `SignId` (struct = concatenation of fields). -/
def SignId.scaleEncode (s : SignId) : Bytes :=
  toLeBytes 4 s.session ++ s.id.scaleEncode ++ toLeBytes 4 s.attempt

/-- The in-range condition on a `VariantSignId`'s payload: `u64` cosign block
number, 32-byte hashes. -/
def WfVariant : VariantSignId → Prop
  | .Cosign blockNumber => blockNumber < 2 ^ 64
  | .Batch hash => hash.length = 32
  | .SlashReport => True
  | .Transaction txid => txid.length = 32

instance (v : VariantSignId) : Decidable (WfVariant v) := by
  cases v <;> simp only [WfVariant] <;> infer_instance

/-- The in-range condition for the machine-integer fields of a `SignId`:
`u32` session and attempt, in-range payload. -/
def WfSignId (s : SignId) : Prop :=
  s.session < 2 ^ 32 ∧ s.attempt < 2 ^ 32 ∧ WfVariant s.id

instance (s : SignId) : Decidable (WfSignId s) := by
  unfold WfSignId
  infer_instance

/-- `messages::key_gen::CoordinatorMessage`. -/
inductive KeyGenMessage where
  | GenerateKey (session threshold : Nat) (evrf_public_keys : List (Bytes × Bytes))
  | Participation (session participant : Nat) (participation : Bytes)

/-- `messages::sign::CoordinatorMessage` (maps embedded as assoc lists). -/
inductive SignMessage where
  | Preprocesses (id : SignId) (preprocesses : List (Nat × Bytes))
  | Shares (id : SignId) (shares : List (Nat × Bytes))
  | Reattempt (id : SignId)

/-- `messages::coordinator::CoordinatorMessage` (slashes kept opaque). -/
inductive CoordMessage where
  | CosignSubstrateBlock (session block_number : Nat) (block : Bytes)
  | SignSlashReport (session : Nat) (report : List Bytes)

/-- `messages::substrate::CoordinatorMessage` (batch and burns kept opaque). -/
inductive SubstrateMessage where
  | SetKeys (serai_time session : Nat) (key_pair : Bytes × Bytes)
  | SlashesReported (session : Nat)
  | Block (serai_block_number : Nat) (batch : Option Bytes) (burns : List Bytes)

/-- The top-level `messages::CoordinatorMessage`. -/
inductive CoordinatorMessage where
  | KeyGen (msg : KeyGenMessage)
  | Sign (msg : SignMessage)
  | Coordinator (msg : CoordMessage)
  | Substrate (msg : SubstrateMessage)

/-- `COORDINATOR_UID`. -/
def COORDINATOR_UID : Nat := 0

/-- `PROCESSOR_UID`. -/
def PROCESSOR_UID : Nat := 1

/-- `TYPE_KEY_GEN_UID`. -/
def TYPE_KEY_GEN_UID : Nat := 0

/-- `TYPE_SIGN_UID`. -/
def TYPE_SIGN_UID : Nat := 1

/-- `TYPE_COORDINATOR_UID`. -/
def TYPE_COORDINATOR_UID : Nat := 2

/-- `TYPE_SUBSTRATE_UID`. -/
def TYPE_SUBSTRATE_UID : Nat := 3

/-- `CoordinatorMessage::intent`: `origin_uid || type_uid || sub_uid || body`,
with the bodies the source selects (session for `GenerateKey`/`SetKeys`/
`SlashesReported`/`SignSlashReport`, session+participant for
`Participation`, the SCALE-encoded `SignId` for the sign messages, the block
number alone for `CosignSubstrateBlock` and `Block`). -/
def CoordinatorMessage.intent : CoordinatorMessage → Bytes
  | .KeyGen msg =>
    match msg with
    | .GenerateKey session _ _ =>
      [COORDINATOR_UID, TYPE_KEY_GEN_UID, 0] ++ toLeBytes 4 session
    | .Participation session participant _ =>
      [COORDINATOR_UID, TYPE_KEY_GEN_UID, 1] ++ (toLeBytes 4 session ++ toLeBytes 2 participant)
  | .Sign msg =>
    match msg with
    | .Preprocesses id _ => [COORDINATOR_UID, TYPE_SIGN_UID, 0] ++ id.scaleEncode
    | .Shares id _ => [COORDINATOR_UID, TYPE_SIGN_UID, 1] ++ id.scaleEncode
    | .Reattempt id => [COORDINATOR_UID, TYPE_SIGN_UID, 2] ++ id.scaleEncode
  | .Coordinator msg =>
    match msg with
    | .CosignSubstrateBlock _ block_number _ =>
      [COORDINATOR_UID, TYPE_COORDINATOR_UID, 0] ++ toLeBytes 8 block_number
    | .SignSlashReport session _ =>
      [COORDINATOR_UID, TYPE_COORDINATOR_UID, 1] ++ toLeBytes 4 session
  | .Substrate msg =>
    match msg with
    | .SetKeys _ session _ => [COORDINATOR_UID, TYPE_SUBSTRATE_UID, 0] ++ toLeBytes 4 session
    | .SlashesReported session =>
      [COORDINATOR_UID, TYPE_SUBSTRATE_UID, 1] ++ toLeBytes 4 session
    | .Block serai_block_number _ _ =>
      [COORDINATOR_UID, TYPE_SUBSTRATE_UID, 2] ++ toLeBytes 8 serai_block_number

/-- The leaf-variant index of a `CoordinatorMessage` (ten leaves). -/
def CoordinatorMessage.ctorIdx : CoordinatorMessage → Nat
  | .KeyGen (.GenerateKey ..) => 0
  | .KeyGen (.Participation ..) => 1
  | .Sign (.Preprocesses ..) => 2
  | .Sign (.Shares ..) => 3
  | .Sign (.Reattempt ..) => 4
  | .Coordinator (.CosignSubstrateBlock ..) => 5
  | .Coordinator (.SignSlashReport ..) => 6
  | .Substrate (.SetKeys ..) => 7
  | .Substrate (.SlashesReported ..) => 8
  | .Substrate (.Block ..) => 9

/-- The `(type_uid, sub_uid)` discriminator pair of each leaf variant. -/
def intentTagOf : Nat → Nat × Nat
  | 0 => (0, 0)
  | 1 => (0, 1)
  | 2 => (1, 0)
  | 3 => (1, 1)
  | 4 => (1, 2)
  | 5 => (2, 0)
  | 6 => (2, 1)
  | 7 => (3, 0)
  | 8 => (3, 1)
  | _ => (3, 2)

/-- SCALE encoding of `SignId` is injective on in-range values. -/
theorem signId_scaleEncode_inj (s1 s2 : SignId) (h1 : WfSignId s1) (h2 : WfSignId s2)
    (h : s1.scaleEncode = s2.scaleEncode) : s1 = s2 := by
  obtain ⟨a1, v1, t1⟩ := s1
  obtain ⟨a2, v2, t2⟩ := s2
  obtain ⟨hs1, ht1, hv1⟩ := h1
  obtain ⟨hs2, ht2, hv2⟩ := h2
  simp only [SignId.scaleEncode, List.append_assoc] at h
  obtain ⟨hsess, hrest⟩ := List.append_inj h (by rw [toLeBytes_length, toLeBytes_length])
  have hsess' : a1 = a2 :=
    toLeBytes_injOn 4 (lt_of_lt_of_eq hs1 (by norm_num)) (lt_of_lt_of_eq hs2 (by norm_num)) hsess
  subst hsess'
  have hatt_of : ∀ hatt : toLeBytes 4 t1 = toLeBytes 4 t2, t1 = t2 := fun hatt =>
    toLeBytes_injOn 4 (lt_of_lt_of_eq ht1 (by norm_num)) (lt_of_lt_of_eq ht2 (by norm_num)) hatt
  cases v1 <;> cases v2 <;>
    simp only [VariantSignId.scaleEncode, List.cons_append, List.cons.injEq, List.nil_append]
      at hrest
  · -- Cosign / Cosign
    rename_i bn1 bn2
    obtain ⟨-, hrest⟩ := hrest
    obtain ⟨hbn, hatt⟩ := List.append_inj hrest (by rw [toLeBytes_length, toLeBytes_length])
    have e1 : bn1 < 2 ^ 64 := hv1
    have e2 : bn2 < 2 ^ 64 := hv2
    rw [toLeBytes_injOn 8 (lt_of_lt_of_eq e1 (by norm_num)) (lt_of_lt_of_eq e2 (by norm_num))
      hbn, hatt_of hatt]
  · exact absurd hrest.1 (by norm_num)
  · exact absurd hrest.1 (by norm_num)
  · exact absurd hrest.1 (by norm_num)
  · exact absurd hrest.1 (by norm_num)
  · -- Batch / Batch
    rename_i h1 h2
    obtain ⟨-, hrest⟩ := hrest
    have e1 : h1.length = 32 := hv1
    have e2 : h2.length = 32 := hv2
    obtain ⟨hh, hatt⟩ := List.append_inj hrest (by rw [e1, e2])
    rw [hh, hatt_of hatt]
  · exact absurd hrest.1 (by norm_num)
  · exact absurd hrest.1 (by norm_num)
  · exact absurd hrest.1 (by norm_num)
  · exact absurd hrest.1 (by norm_num)
  · -- SlashReport / SlashReport
    obtain ⟨-, hatt⟩ := hrest
    rw [hatt_of hatt]
  · exact absurd hrest.1 (by norm_num)
  · exact absurd hrest.1 (by norm_num)
  · exact absurd hrest.1 (by norm_num)
  · exact absurd hrest.1 (by norm_num)
  · -- Transaction / Transaction
    rename_i h1 h2
    obtain ⟨-, hrest⟩ := hrest
    have e1 : h1.length = 32 := hv1
    have e2 : h2.length = 32 := hv2
    obtain ⟨hh, hatt⟩ := List.append_inj hrest (by rw [e1, e2])
    rw [hh, hatt_of hatt]

theorem intent_take3 (m : CoordinatorMessage) :
    m.intent.take 3 = [0, (intentTagOf m.ctorIdx).1, (intentTagOf m.ctorIdx).2] := by
  rcases m with msg | msg | msg | msg <;> cases msg <;> rfl

theorem ctorIdx_lt_ten (m : CoordinatorMessage) : m.ctorIdx < 10 := by
  rcases m with msg | msg | msg | msg <;> cases msg <;>
    simp only [CoordinatorMessage.ctorIdx] <;> omega

theorem intentTagOf_inj : ∀ i < 10, ∀ j < 10, intentTagOf i = intentTagOf j → i = j := by
  decide

/-- C4: intent identity.
(1) Two `Sign::Preprocesses` messages have equal intents iff their `SignId`s
are equal (whatever their preprocess maps).
(2) Two `Coordinator::CosignSubstrateBlock` messages with the same block
number have equal intents, whatever their block hashes (and sessions).
(3) Messages of distinct leaf variants always have distinct intents (the
type/sub discriminator bytes differ). -/
theorem C4_intent_identity :
    (∀ (id1 id2 : SignId) (pre1 pre2 : List (Nat × Bytes)),
      WfSignId id1 → WfSignId id2 →
      (CoordinatorMessage.intent (.Sign (.Preprocesses id1 pre1))
          = CoordinatorMessage.intent (.Sign (.Preprocesses id2 pre2))
        ↔ id1 = id2)) ∧
    (∀ (s1 s2 block_number : Nat) (b1 b2 : Bytes),
      CoordinatorMessage.intent (.Coordinator (.CosignSubstrateBlock s1 block_number b1))
        = CoordinatorMessage.intent (.Coordinator (.CosignSubstrateBlock s2 block_number b2))) ∧
    (∀ m1 m2 : CoordinatorMessage, m1.ctorIdx ≠ m2.ctorIdx →
      CoordinatorMessage.intent m1 ≠ CoordinatorMessage.intent m2) := by
  refine ⟨?_, ?_, ?_⟩
  · intro id1 id2 pre1 pre2 h1 h2
    constructor
    · intro h
      simp only [CoordinatorMessage.intent, List.cons_append, List.nil_append,
        List.cons.injEq] at h
      exact signId_scaleEncode_inj id1 id2 h1 h2 h.2.2.2
    · intro h
      subst h
      rfl
  · intro s1 s2 block_number b1 b2
    rfl
  · intro m1 m2 hne h
    apply hne
    apply intentTagOf_inj _ (ctorIdx_lt_ten m1) _ (ctorIdx_lt_ten m2)
    have h3 := congrArg (fun l => List.take 3 l) h
    simp only at h3
    rw [intent_take3, intent_take3] at h3
    simp only [List.cons.injEq] at h3
    exact Prod.ext h3.2.1 h3.2.2.1

/-- C4 at concrete inputs: equal ids give equal `Preprocesses` intents (even
with different maps), distinct ids give distinct intents, cosign intents key
on the block number alone, and distinct variants have distinct intents. -/
theorem C4_witness :
    (CoordinatorMessage.intent (.Sign (.Preprocesses ⟨1, .SlashReport, 0⟩ []))
      = CoordinatorMessage.intent (.Sign (.Preprocesses ⟨1, .SlashReport, 0⟩ [(1, [2])]))) ∧
    (CoordinatorMessage.intent (.Sign (.Preprocesses ⟨1, .Cosign 17, 0⟩ []))
      ≠ CoordinatorMessage.intent (.Sign (.Preprocesses ⟨1, .Cosign 18, 0⟩ []))) ∧
    (CoordinatorMessage.intent
        (.Coordinator (.CosignSubstrateBlock 1 17 (List.replicate 32 0)))
      = CoordinatorMessage.intent
        (.Coordinator (.CosignSubstrateBlock 2 17 (List.replicate 32 1)))) ∧
    (CoordinatorMessage.intent (.KeyGen (.GenerateKey 1 2 []))
      ≠ CoordinatorMessage.intent (.Substrate (.SlashesReported 1))) :=
  ⟨(C4_intent_identity.1 ⟨1, .SlashReport, 0⟩ ⟨1, .SlashReport, 0⟩ [] [(1, [2])]
      (by decide) (by decide)).mpr rfl,
   fun h => by
    have := (C4_intent_identity.1 ⟨1, .Cosign 17, 0⟩ ⟨1, .Cosign 18, 0⟩ [] []
      (by decide) (by decide)).mp h
    simp at this,
   C4_intent_identity.2.1 1 2 17 (List.replicate 32 0) (List.replicate 32 1),
   C4_intent_identity.2.2 _ _ (by decide)⟩

/-! ## C9: `cosign_block_msg` -/

/-- C9 (amended): `cosign_block_msg` returns a **length byte (6)**, then the
tag `"Cosign"`, then the 8-byte little-endian block number, then the block
hash; positions 7–14 recover the block number and positions 15.. the hash,
so the encoding is injective on `u64` block numbers. -/
theorem C9_cosign_block_msg_bytes :
    (∀ (block_number : Nat) (block : Bytes),
      cosign_block_msg block_number block
        = 6 :: ([67, 111, 115, 105, 103, 110] ++ toLeBytes 8 block_number ++ block) ∧
      ((cosign_block_msg block_number block).drop 7).take 8 = toLeBytes 8 block_number ∧
      (cosign_block_msg block_number block).drop 15 = block ∧
      (cosign_block_msg block_number block).length = 15 + block.length) ∧
    (∀ (bn1 bn2 : Nat) (b1 b2 : Bytes), bn1 < 2 ^ 64 → bn2 < 2 ^ 64 →
      cosign_block_msg bn1 b1 = cosign_block_msg bn2 b2 → bn1 = bn2 ∧ b1 = b2) := by
  have hshape : ∀ (block_number : Nat) (block : Bytes),
      cosign_block_msg block_number block
        = 6 :: ([67, 111, 115, 105, 103, 110] ++ toLeBytes 8 block_number ++ block) := by
    intro bn b
    rfl
  have hdrop7 : ∀ (bn : Nat) (b : Bytes),
      (cosign_block_msg bn b).drop 7 = toLeBytes 8 bn ++ b := by
    intro bn b
    rw [hshape]
    rfl
  have htake : ∀ (bn : Nat) (b : Bytes),
      ((cosign_block_msg bn b).drop 7).take 8 = toLeBytes 8 bn := by
    intro bn b
    rw [hdrop7]
    exact List.take_left' (toLeBytes_length 8 bn)
  have hdrop15 : ∀ (bn : Nat) (b : Bytes), (cosign_block_msg bn b).drop 15 = b := by
    intro bn b
    have : (cosign_block_msg bn b).drop 15 = ((cosign_block_msg bn b).drop 7).drop 8 := by
      rw [List.drop_drop]
    rw [this, hdrop7, List.drop_append_of_le_length (by rw [toLeBytes_length])]
    have hnil : List.drop 8 (toLeBytes 8 bn) = [] := by
      have h8 := List.drop_length (toLeBytes 8 bn)
      rwa [toLeBytes_length] at h8
    rw [hnil, List.nil_append]
  refine ⟨fun bn b => ⟨hshape bn b, htake bn b, hdrop15 bn b, ?_⟩, ?_⟩
  · rw [hshape]
    simp [toLeBytes_length]
    omega
  · intro bn1 bn2 b1 b2 hb1 hb2 h
    constructor
    · have := congrArg (fun l => (List.drop 7 l).take 8) h
      simp only [] at this
      rw [htake, htake] at this
      exact toLeBytes_injOn 8 (lt_of_lt_of_eq hb1 (by norm_num))
        (lt_of_lt_of_eq hb2 (by norm_num)) this
    · have := congrArg (List.drop 15) h
      rwa [hdrop15, hdrop15] at this

/-- C9, as stated, is false on the code: the message does **not** begin with
the tag `"Cosign"`; a length byte 6 comes first, making the message 47 bytes
rather than 46. -/
theorem C9_counterexample :
    cosign_block_msg 0 (List.replicate 32 0)
      ≠ cosignDst ++ toLeBytes 8 0 ++ List.replicate 32 0 ∧
    (cosign_block_msg 0 (List.replicate 32 0)).getD 0 0 = 6 ∧
    (cosign_block_msg 0 (List.replicate 32 0)).length = 47 := by
  refine ⟨by decide, by decide, by decide⟩

/-- The amended C9 at a concrete input. -/
theorem C9_witness :
    cosign_block_msg 17 (List.replicate 32 5)
      = 6 :: ([67, 111, 115, 105, 103, 110] ++ toLeBytes 8 17 ++ List.replicate 32 5) ∧
    (17 < 2 ^ 64 ∧ 18 < 2 ^ 64) ∧
    ¬(cosign_block_msg 17 (List.replicate 32 5) = cosign_block_msg 18 (List.replicate 32 5)) :=
  ⟨(C9_cosign_block_msg_bytes.1 17 (List.replicate 32 5)).1,
   ⟨by decide, by decide⟩,
   fun h => by
    have := (C9_cosign_block_msg_bytes.2 17 18 (List.replicate 32 5) (List.replicate 32 5)
      (by decide) (by decide) h).1
    simp at this⟩

/-! ### The signers' database: `register_keys`, `retire_session`, boot cleanup

`src/processor/signers/src/lib.rs` manipulates database keys and durable
channels declared in its `db` module, which is not included in the source
excerpt.  Modelled from the spec: a serai-db value key holds an `Option` of
its value (`get`/`set`/`del`), and a serai-db channel is a FIFO queue where
`send` appends at the back and `try_recv` pops the front.  Key shares,
serialized external keys and messages are opaque byte strings; `Session` is
its underlying `u32`, a `Nat`. -/

/-- `try_recv` on a channel: pop the front message, if any. -/
def tryRecv (q : List Bytes) : Option (Bytes × List Bytes) :=
  match q with
  | [] => none
  | m :: rest => some (m, rest)

/-- The `while Channel::try_recv(&mut txn, ..).is_some() {}` drain loop. -/
def drainChannel : List Bytes → List Bytes
  | [] => []
  | _ :: rest => drainChannel rest

/-- The state the `Signers` functions read and write: the four value keys of
`signers/src/db.rs` plus its ten per-`Session` durable channels and the four
per-external-key scanner/scheduler channels drained on boot. -/
structure SignersDb where
  registeredKeys : Option (List Nat)
  serializedKeys : Nat → Option Bytes
  latestRetiredSession : Option Nat
  toCleanup : Option (List (Nat × Bytes))
  cosign : Nat → List Bytes
  slashReport : Nat → List Bytes
  coordinatorToCosignerMessages : Nat → List Bytes
  cosignerToCoordinatorMessages : Nat → List Bytes
  coordinatorToBatchSignerMessages : Nat → List Bytes
  batchSignerToCoordinatorMessages : Nat → List Bytes
  coordinatorToSlashReportSignerMessages : Nat → List Bytes
  slashReportSignerToCoordinatorMessages : Nat → List Bytes
  coordinatorToTransactionSignerMessages : Nat → List Bytes
  transactionSignerToCoordinatorMessages : Nat → List Bytes
  batchesToSign : Bytes → List Bytes
  acknowledgedBatches : Bytes → List Bytes
  transactionsToSign : Bytes → List Bytes
  completedEventualities : Bytes → List Bytes

/-- `Some(session.0) <= db::LatestRetiredSession::get(txn).map(|session| session.0)`:
Rust orders `Option` with `None < Some _`, so this is false when nothing was
retired yet. -/
def sessionAlreadyRetired (db : SignersDb) (session : Nat) : Bool :=
  match db.latestRetiredSession with
  | some latest => session ≤ latest
  | none => false

/-- The interleaved key blob `register_keys` stores: each substrate key share's
serialization immediately followed by its paired network key share's
(`substrate_keys.into_iter().zip(network_keys)`). -/
def serializedKeyBuf (substrate_keys network_keys : List Bytes) : Bytes :=
  (substrate_keys.zip network_keys).foldl (fun buf p => buf ++ p.1 ++ p.2) []

/-- `Signers::register_keys` (signers/src/lib.rs). -/
def register_keys (db : SignersDb) (session : Nat)
    (substrate_keys network_keys : List Bytes) : SignersDb :=
  if sessionAlreadyRetired db session then db
  else
    { db with
      registeredKeys := some (db.registeredKeys.getD [] ++ [session])
      serializedKeys := fun s =>
        if s = session then some (serializedKeyBuf substrate_keys network_keys)
        else db.serializedKeys s }

/-- `Signers::retire_session` (signers/src/lib.rs); `none` is the
`assert_eq!(session, next_to_retire)` panic. -/
def retire_session (db : SignersDb) (session : Nat) (external_key : Bytes) :
    Option SignersDb :=
  let next_to_retire : Nat :=
    match db.latestRetiredSession with
    | none => 0
    | some s => s + 1
  if session = next_to_retire then
    some { db with
      latestRetiredSession := some session
      registeredKeys :=
        match db.registeredKeys with
        | some registered => some (registered.filter (fun s => s != session))
        | none => none
      serializedKeys := fun s => if s = session then none else db.serializedKeys s
      toCleanup := some (db.toCleanup.getD [] ++ [(session, external_key)]) }
  else none

/-- One iteration of `Signers::new`'s
`for (session, external_key_bytes) in db::ToCleanup::get(&txn).unwrap_or(vec![])`
loop: drain the four per-key and ten per-session channels of this entry. -/
def cleanup_one (db : SignersDb) (entry : Nat × Bytes) : SignersDb :=
  { db with
    batchesToSign := fun k =>
      if k = entry.2 then drainChannel (db.batchesToSign k) else db.batchesToSign k
    acknowledgedBatches := fun k =>
      if k = entry.2 then drainChannel (db.acknowledgedBatches k) else db.acknowledgedBatches k
    transactionsToSign := fun k =>
      if k = entry.2 then drainChannel (db.transactionsToSign k) else db.transactionsToSign k
    completedEventualities := fun k =>
      if k = entry.2 then drainChannel (db.completedEventualities k)
      else db.completedEventualities k
    cosign := fun s => if s = entry.1 then drainChannel (db.cosign s) else db.cosign s
    slashReport := fun s =>
      if s = entry.1 then drainChannel (db.slashReport s) else db.slashReport s
    coordinatorToCosignerMessages := fun s =>
      if s = entry.1 then drainChannel (db.coordinatorToCosignerMessages s)
      else db.coordinatorToCosignerMessages s
    cosignerToCoordinatorMessages := fun s =>
      if s = entry.1 then drainChannel (db.cosignerToCoordinatorMessages s)
      else db.cosignerToCoordinatorMessages s
    coordinatorToBatchSignerMessages := fun s =>
      if s = entry.1 then drainChannel (db.coordinatorToBatchSignerMessages s)
      else db.coordinatorToBatchSignerMessages s
    batchSignerToCoordinatorMessages := fun s =>
      if s = entry.1 then drainChannel (db.batchSignerToCoordinatorMessages s)
      else db.batchSignerToCoordinatorMessages s
    coordinatorToSlashReportSignerMessages := fun s =>
      if s = entry.1 then drainChannel (db.coordinatorToSlashReportSignerMessages s)
      else db.coordinatorToSlashReportSignerMessages s
    slashReportSignerToCoordinatorMessages := fun s =>
      if s = entry.1 then drainChannel (db.slashReportSignerToCoordinatorMessages s)
      else db.slashReportSignerToCoordinatorMessages s
    coordinatorToTransactionSignerMessages := fun s =>
      if s = entry.1 then drainChannel (db.coordinatorToTransactionSignerMessages s)
      else db.coordinatorToTransactionSignerMessages s
    transactionSignerToCoordinatorMessages := fun s =>
      if s = entry.1 then drainChannel (db.transactionSignerToCoordinatorMessages s)
      else db.transactionSignerToCoordinatorMessages s }

/-- The boot-cleanup block of `Signers::new` (signers/src/lib.rs): clean up
every queued `(session, external_key)` entry, then `db::ToCleanup::del`, in
one transaction. -/
def boot_cleanup (db : SignersDb) : SignersDb :=
  { (db.toCleanup.getD []).foldl cleanup_one db with toCleanup := none }

/-- Folding the interleaving step from an accumulator prepends the accumulator. -/
theorem serializedKeyBuf_foldl_acc (l : List (Bytes × Bytes)) (acc : Bytes) :
    l.foldl (fun buf p => buf ++ p.1 ++ p.2) acc
      = acc ++ l.foldl (fun buf p => buf ++ p.1 ++ p.2) [] := by
  induction l generalizing acc with
  | nil => simp
  | cons p rest ih =>
    rw [List.foldl_cons, List.foldl_cons, ih, ih (([] : Bytes) ++ p.1 ++ p.2)]
    simp

/-- An empty database, for concrete runs. -/
def baseSignersDb : SignersDb where
  registeredKeys := none
  serializedKeys := fun _ => none
  latestRetiredSession := none
  toCleanup := none
  cosign := fun _ => []
  slashReport := fun _ => []
  coordinatorToCosignerMessages := fun _ => []
  cosignerToCoordinatorMessages := fun _ => []
  coordinatorToBatchSignerMessages := fun _ => []
  batchSignerToCoordinatorMessages := fun _ => []
  coordinatorToSlashReportSignerMessages := fun _ => []
  slashReportSignerToCoordinatorMessages := fun _ => []
  coordinatorToTransactionSignerMessages := fun _ => []
  transactionSignerToCoordinatorMessages := fun _ => []
  batchesToSign := fun _ => []
  acknowledgedBatches := fun _ => []
  transactionsToSign := fun _ => []
  completedEventualities := fun _ => []

/-- A database with three registered sessions and nothing retired. -/
def c5Db : SignersDb :=
  { baseSignersDb with
    registeredKeys := some [0, 1, 2]
    serializedKeys := fun s => if s ≤ 2 then some [7, 7] else none }

/-- The database after `retire_session c5Db 0 [9]`. -/
def c5Db2 : SignersDb := (retire_session c5Db 0 [9]).getD c5Db

/-- A database whose latest retired session is 5. -/
def c6Db : SignersDb := { baseSignersDb with latestRetiredSession := some 5 }

/-- **C5.** `retire_session(txn, session, external_key)` aborts unless `session`
equals `LatestRetiredSession + 1` (or `Session(0)` when nothing was retired yet)
— so calling it twice with the same session aborts — and on success it sets
`LatestRetiredSession` to `session`, removes `session` from `RegisteredKeys`,
deletes `SerializedKeys[session]`, and appends `(session, external_key bytes)`
to `ToCleanup`. -/
theorem C5_retire_session (db : SignersDb) (session : Nat) (external_key : Bytes) :
    ((retire_session db session external_key).isSome ↔
      session = (match db.latestRetiredSession with | none => 0 | some s => s + 1)) ∧
    (∀ db', retire_session db session external_key = some db' →
      db'.latestRetiredSession = some session ∧
      db'.registeredKeys.getD [] = (db.registeredKeys.getD []).filter (fun s => s != session) ∧
      session ∉ db'.registeredKeys.getD [] ∧
      db'.serializedKeys session = none ∧
      (∀ s, s ≠ session → db'.serializedKeys s = db.serializedKeys s) ∧
      db'.toCleanup = some (db.toCleanup.getD [] ++ [(session, external_key)]) ∧
      retire_session db' session external_key = none) := by
  constructor
  · by_cases h : session = (match db.latestRetiredSession with | none => 0 | some s => s + 1)
    · simp [retire_session, h]
    · simp [retire_session, h]
  · intro db' hdb'
    rw [retire_session] at hdb'
    split at hdb'
    case isFalse => exact absurd hdb' (by simp)
    case isTrue hsession =>
    obtain rfl : _ = db' := Option.some.inj hdb'
    refine ⟨rfl, ?_, ?_, by simp, fun s hs => by simp [hs], rfl, ?_⟩
    · cases db.registeredKeys <;> rfl
    · cases db.registeredKeys with
      | none => simp
      | some r => simp [List.mem_filter]
    · rw [retire_session]
      simp

/-- A run of C5 on a concrete database: retiring session 0 succeeds (nothing
retired yet), updates the four keys, and retiring 0 a second time aborts. -/
theorem C5_witness :
    retire_session c5Db 0 [9] = some c5Db2 ∧
    c5Db2.latestRetiredSession = some 0 ∧
    c5Db2.registeredKeys.getD [] = [1, 2] ∧
    (0 : Nat) ∉ c5Db2.registeredKeys.getD [] ∧
    c5Db2.serializedKeys 0 = none ∧
    c5Db2.serializedKeys 1 = some [7, 7] ∧
    c5Db2.toCleanup = some [(0, [9])] ∧
    retire_session c5Db2 0 [9] = none := by
  have hsome : retire_session c5Db 0 [9] = some c5Db2 := rfl
  obtain ⟨-, hspec⟩ := C5_retire_session c5Db 0 [9]
  obtain ⟨h1, h2, h3, h4, h5, h6, h7⟩ := hspec c5Db2 hsome
  refine ⟨hsome, h1, ?_, h3, h4, ?_, ?_, h7⟩
  · rw [h2]; rfl
  · rw [h5 1 (by decide)]; rfl
  · rw [h6]; rfl

/-- **C6.** `register_keys` for a session at or before `LatestRetiredSession`
is a NOP leaving the whole database unchanged; otherwise it appends the session
to `RegisteredKeys` and stores the interleaved key blob (each substrate share
followed by its paired network share) under `SerializedKeys[session]`, touching
nothing else. -/
theorem C6_register_keys (db : SignersDb) (session : Nat)
    (substrate_keys network_keys : List Bytes) :
    ((∃ latest, db.latestRetiredSession = some latest ∧ session ≤ latest) →
      register_keys db session substrate_keys network_keys = db) ∧
    ((∀ latest, db.latestRetiredSession = some latest → latest < session) →
      ∀ db', register_keys db session substrate_keys network_keys = db' →
        db'.registeredKeys = some (db.registeredKeys.getD [] ++ [session]) ∧
        db'.serializedKeys session = some (serializedKeyBuf substrate_keys network_keys) ∧
        (∀ s, s ≠ session → db'.serializedKeys s = db.serializedKeys s) ∧
        db'.latestRetiredSession = db.latestRetiredSession ∧
        db'.toCleanup = db.toCleanup ∧
        db'.cosign = db.cosign ∧
        db'.slashReport = db.slashReport ∧
        db'.coordinatorToCosignerMessages = db.coordinatorToCosignerMessages ∧
        db'.cosignerToCoordinatorMessages = db.cosignerToCoordinatorMessages ∧
        db'.coordinatorToBatchSignerMessages = db.coordinatorToBatchSignerMessages ∧
        db'.batchSignerToCoordinatorMessages = db.batchSignerToCoordinatorMessages ∧
        db'.coordinatorToSlashReportSignerMessages = db.coordinatorToSlashReportSignerMessages ∧
        db'.slashReportSignerToCoordinatorMessages = db.slashReportSignerToCoordinatorMessages ∧
        db'.coordinatorToTransactionSignerMessages = db.coordinatorToTransactionSignerMessages ∧
        db'.transactionSignerToCoordinatorMessages = db.transactionSignerToCoordinatorMessages ∧
        db'.batchesToSign = db.batchesToSign ∧
        db'.acknowledgedBatches = db.acknowledgedBatches ∧
        db'.transactionsToSign = db.transactionsToSign ∧
        db'.completedEventualities = db.completedEventualities) ∧
    (∀ a as b bs, serializedKeyBuf (a :: as) (b :: bs) = (a ++ b) ++ serializedKeyBuf as bs) := by
  refine ⟨?_, ?_, ?_⟩
  · rintro ⟨latest, hl, hle⟩
    rw [register_keys, if_pos]
    rw [sessionAlreadyRetired, hl]
    simpa using hle
  · intro hgt db' hdb'
    have hfalse : sessionAlreadyRetired db session = false := by
      rw [sessionAlreadyRetired]
      cases hl : db.latestRetiredSession with
      | none => rfl
      | some latest => simpa using Nat.not_le.mpr (hgt latest hl)
    rw [register_keys, hfalse] at hdb'
    simp only [Bool.false_eq_true, if_false] at hdb'
    subst hdb'
    refine ⟨rfl, by simp, fun s hs => by simp [hs], rfl, rfl, rfl, rfl, rfl, rfl, rfl, rfl,
      rfl, rfl, rfl, rfl, rfl, rfl, rfl, rfl⟩
  · intro a as b bs
    rw [serializedKeyBuf, serializedKeyBuf, List.zip_cons_cons, List.foldl_cons]
    simp only [List.nil_append]
    exact serializedKeyBuf_foldl_acc (as.zip bs) (a ++ b)

/-- A run of C6 on a concrete database with `LatestRetiredSession = 5`:
registering session 3 is a NOP, registering session 9 stores the interleaved
blob of two key pairs and leaves the retired-session marker alone. -/
theorem C6_witness :
    register_keys c6Db 3 [[1]] [[2]] = c6Db ∧
    (register_keys c6Db 9 [[1], [3]] [[2], [4]]).registeredKeys = some [9] ∧
    (register_keys c6Db 9 [[1], [3]] [[2], [4]]).serializedKeys 9 = some [1, 2, 3, 4] ∧
    (register_keys c6Db 9 [[1], [3]] [[2], [4]]).latestRetiredSession = some 5 := by
  obtain ⟨hnop, hreg, -⟩ := C6_register_keys c6Db 3 [[1]] [[2]]
  obtain ⟨-, hreg9, -⟩ := C6_register_keys c6Db 9 [[1], [3]] [[2], [4]]
  have h9 := hreg9 (fun latest hl => by
    have h := Option.some.inj ((rfl : (some 5 : Option Nat) = c6Db.latestRetiredSession).trans hl)
    omega) _ rfl
  refine ⟨hnop ⟨5, rfl, by decide⟩, ?_, ?_, ?_⟩
  · rw [h9.1]; rfl
  · rw [h9.2.1]; rfl
  · rw [h9.2.2.2.1]; rfl

/-- All fourteen channels the boot cleanup drains for a `(session, key)` entry
answer `none` to `try_recv`. -/
def ChannelsDrained (db : SignersDb) (session : Nat) (key : Bytes) : Prop :=
  tryRecv (db.batchesToSign key) = none ∧
  tryRecv (db.acknowledgedBatches key) = none ∧
  tryRecv (db.transactionsToSign key) = none ∧
  tryRecv (db.completedEventualities key) = none ∧
  tryRecv (db.cosign session) = none ∧
  tryRecv (db.slashReport session) = none ∧
  tryRecv (db.coordinatorToCosignerMessages session) = none ∧
  tryRecv (db.cosignerToCoordinatorMessages session) = none ∧
  tryRecv (db.coordinatorToBatchSignerMessages session) = none ∧
  tryRecv (db.batchSignerToCoordinatorMessages session) = none ∧
  tryRecv (db.coordinatorToSlashReportSignerMessages session) = none ∧
  tryRecv (db.slashReportSignerToCoordinatorMessages session) = none ∧
  tryRecv (db.coordinatorToTransactionSignerMessages session) = none ∧
  tryRecv (db.transactionSignerToCoordinatorMessages session) = none

theorem drainChannel_eq_nil (l : List Bytes) : drainChannel l = [] := by
  induction l with
  | nil => rfl
  | cons m rest ih => rw [drainChannel, ih]

theorem tryRecv_update (c : Prop) [Decidable c] (old : List Bytes)
    (h : tryRecv old = none) :
    tryRecv (if c then drainChannel old else old) = none := by
  split
  · rw [drainChannel_eq_nil]; rfl
  · exact h

/-- A cleanup pass over its own entry drains all fourteen channels. -/
theorem cleanup_one_establishes (db : SignersDb) (session : Nat) (key : Bytes) :
    ChannelsDrained (cleanup_one db (session, key)) session key := by
  refine ⟨?_, ?_, ?_, ?_, ?_, ?_, ?_, ?_, ?_, ?_, ?_, ?_, ?_, ?_⟩ <;>
    simp [cleanup_one, drainChannel_eq_nil, tryRecv]

/-- A cleanup pass over any entry keeps already-drained channels drained. -/
theorem cleanup_one_preserves (db : SignersDb) (session : Nat) (key : Bytes)
    (e : Nat × Bytes) (h : ChannelsDrained db session key) :
    ChannelsDrained (cleanup_one db e) session key := by
  obtain ⟨h1, h2, h3, h4, h5, h6, h7, h8, h9, h10, h11, h12, h13, h14⟩ := h
  exact ⟨tryRecv_update _ _ h1, tryRecv_update _ _ h2, tryRecv_update _ _ h3,
    tryRecv_update _ _ h4, tryRecv_update _ _ h5, tryRecv_update _ _ h6,
    tryRecv_update _ _ h7, tryRecv_update _ _ h8, tryRecv_update _ _ h9,
    tryRecv_update _ _ h10, tryRecv_update _ _ h11, tryRecv_update _ _ h12,
    tryRecv_update _ _ h13, tryRecv_update _ _ h14⟩

theorem foldl_cleanup_preserves (entries : List (Nat × Bytes)) (db : SignersDb)
    (session : Nat) (key : Bytes) (h : ChannelsDrained db session key) :
    ChannelsDrained (entries.foldl cleanup_one db) session key := by
  induction entries generalizing db with
  | nil => exact h
  | cons e rest ih =>
    rw [List.foldl_cons]
    exact ih _ (cleanup_one_preserves _ _ _ _ h)

theorem foldl_cleanup_establishes (entries : List (Nat × Bytes)) (db : SignersDb)
    (session : Nat) (key : Bytes) (h : (session, key) ∈ entries) :
    ChannelsDrained (entries.foldl cleanup_one db) session key := by
  induction entries generalizing db with
  | nil => cases h
  | cons e rest ih =>
    rw [List.foldl_cons]
    rcases List.mem_cons.mp h with he | hrest
    · rw [← he]
      exact foldl_cleanup_preserves _ _ _ _ (cleanup_one_establishes _ _ _)
    · exact ih _ hrest

/-- **C7.** After `Signers::new`'s boot cleanup, every per-session durable
channel and every per-external-key channel of each `(session, external_key)`
pair that was queued in `ToCleanup` answers `none` to `try_recv`, and the
`ToCleanup` entries are deleted (the model performs the whole block as a single
state transformation, matching the single committed transaction). -/
theorem C7_boot_cleanup (db : SignersDb) (session : Nat) (key : Bytes)
    (h : (session, key) ∈ db.toCleanup.getD []) :
    ChannelsDrained (boot_cleanup db) session key ∧
    (boot_cleanup db).toCleanup = none := by
  constructor
  · exact foldl_cleanup_establishes _ _ _ _ h
  · rfl

/-- A database with two queued cleanup entries and live traffic in the
channels of both. -/
def c7Db : SignersDb :=
  { baseSignersDb with
    toCleanup := some [(1, [10]), (2, [20])]
    cosign := fun s => if s = 1 then [[1]] else [[2], [2]]
    slashReport := fun _ => [[3]]
    coordinatorToCosignerMessages := fun _ => [[4]]
    cosignerToCoordinatorMessages := fun _ => [[5]]
    coordinatorToBatchSignerMessages := fun _ => [[6]]
    batchSignerToCoordinatorMessages := fun _ => [[7]]
    coordinatorToSlashReportSignerMessages := fun _ => [[8]]
    slashReportSignerToCoordinatorMessages := fun _ => [[9]]
    coordinatorToTransactionSignerMessages := fun _ => [[10]]
    transactionSignerToCoordinatorMessages := fun _ => [[11]]
    batchesToSign := fun k => if k = [10] then [[12]] else [[13]]
    acknowledgedBatches := fun _ => [[14]]
    transactionsToSign := fun _ => [[15]]
    completedEventualities := fun _ => [[16]] }

/-- C7 run on `c7Db` for its second queued entry `(2, [20])`. -/
theorem C7_witness :
    (2, ([20] : Bytes)) ∈ c7Db.toCleanup.getD [] ∧
    tryRecv ((boot_cleanup c7Db).cosign 2) = none ∧
    tryRecv ((boot_cleanup c7Db).batchesToSign [20]) = none ∧
    tryRecv ((boot_cleanup c7Db).transactionSignerToCoordinatorMessages 2) = none ∧
    (boot_cleanup c7Db).toCleanup = none := by
  have hmem : (2, ([20] : Bytes)) ∈ c7Db.toCleanup.getD [] := by decide
  obtain ⟨hd, hdel⟩ := C7_boot_cleanup c7Db 2 [20] hmem
  exact ⟨hmem, hd.2.2.2.2.1, hd.1, hd.2.2.2.2.2.2.2.2.2.2.2.2.2, hdel⟩

/-! ### The cosigner task (signers/src/cosign/mod.rs)

`CosignerTask::run_iteration` first checks `ToCosign` for a fresh cosign to
work on, then drains `CoordinatorToCosignerMessages` through the attempt
manager.  `serai_cosign::Cosign` and `frost_attempt_manager::AttemptManager`
come from crates outside the excerpt; modelled from the spec: a cosign is a
block number with a block hash whose `signature_message` is
`cosign_block_msg`, and the attempt manager is an abstract state machine with
`retire`, `register` and `handle` operations whose `handle` returns either
messages to forward or a produced signature tagged with its `VariantSignId`.
Panics (`assert!`/`panic!`) are `none` results. -/

/-- `serai_cosign::Cosign`. -/
structure CosignData where
  block_number : Nat
  block_hash : Bytes
deriving DecidableEq

/-- `Cosign::signature_message`. -/
def CosignData.signature_message (c : CosignData) : Bytes :=
  cosign_block_msg c.block_number c.block_hash

/-- `serai_cosign::SignedCosign` (the signature kept as opaque bytes). -/
structure SignedCosign where
  cosign : CosignData
  signature : Bytes
deriving DecidableEq

/-- `frost_attempt_manager::Response`. -/
inductive AmResponse (ProcMsg : Type) where
  | messages (msgs : List ProcMsg)
  | signature (id : VariantSignId) (signature : Bytes)

/-- Abstract model of the attempt manager and the machines fed to it. -/
structure AttemptManagerModel where
  AM : Type
  Machine : Type
  ProcMsg : Type
  Key : Type
  mkMachine : Key → Bytes → Machine
  retire : AM → VariantSignId → AM
  register : AM → VariantSignId → List Machine → AM × List ProcMsg
  handle : AM → SignMessage → AM × AmResponse ProcMsg

/-- The database slice the cosigner task reads and writes: the `ToCosign` and
`LatestCosigned` value keys, its inbound/outbound coordinator channels, and the
`Cosign` channel `SignedCosign`s are emitted on. -/
structure CosignerDb (M : AttemptManagerModel) where
  toCosign : Option CosignData
  latestCosigned : Option Nat
  coordinatorToCosigner : List SignMessage
  cosignerToCoordinator : List M.ProcMsg
  cosignChannel : List SignedCosign

/-- The in-memory fields of `CosignerTask`. -/
structure CosignerTaskState (M : AttemptManagerModel) where
  keys : List M.Key
  current_cosign : Option CosignData
  attempt_manager : M.AM

/-- `LatestCosigned::get(&txn, session) < Some(cosign.block_number)` (Rust
orders `Option` with `None < Some _`). -/
def optLtSome (o : Option Nat) (bn : Nat) : Bool :=
  match o with
  | none => true
  | some x => x < bn

/-- The registration half of the fresh-cosign branch: build one machine per
key share over the cosign's `signature_message`, register them under
`VariantSignId::Cosign(block_number)`, and send the returned messages. -/
def cosignerRegister (M : AttemptManagerModel) (task : CosignerTaskState M)
    (db : CosignerDb M) (cosign : CosignData) (am : M.AM) :
    CosignerTaskState M × CosignerDb M :=
  let machines := task.keys.map (fun k => M.mkMachine k cosign.signature_message)
  let res := M.register am (VariantSignId.Cosign cosign.block_number) machines
  ({ task with current_cosign := some cosign, attempt_manager := res.1 },
   { db with cosignerToCoordinator := db.cosignerToCoordinator ++ res.2 })

/-- The first block of `run_iteration`: check the cosign to work on. -/
def cosignerCheckCosign (M : AttemptManagerModel) (task : CosignerTaskState M)
    (db : CosignerDb M) : Option (CosignerTaskState M × CosignerDb M) :=
  match db.toCosign with
  | none => some (task, db)
  | some cosign =>
    if optLtSome db.latestCosigned cosign.block_number then
      if task.current_cosign ≠ some cosign then
        match task.current_cosign with
        | some current_cosign =>
          if current_cosign.block_number < cosign.block_number then
            some (cosignerRegister M task db cosign
              (M.retire task.attempt_manager
                (VariantSignId.Cosign current_cosign.block_number)))
          else none
        | none => some (cosignerRegister M task db cosign task.attempt_manager)
      else some (task, db)
    else some (task, db)

/-- The message loop of `run_iteration`, recursing over the drained inbox; the
returned `Bool` is the `iterated` flag. -/
def cosignerHandleMessages (M : AttemptManagerModel) :
    List SignMessage → CosignerTaskState M → CosignerDb M →
    Option (CosignerTaskState M × CosignerDb M × Bool)
  | [], task, db => some (task, db, false)
  | msg :: rest, task, db =>
    let res := M.handle task.attempt_manager msg
    match res.2 with
    | .messages msgs =>
      (cosignerHandleMessages M rest { task with attempt_manager := res.1 }
        { db with cosignerToCoordinator := db.cosignerToCoordinator ++ msgs }).map
        (fun r => (r.1, r.2.1, true))
    | .signature id signature =>
      match id with
      | .Cosign block_number =>
        match task.current_cosign with
        | some current =>
          if block_number = current.block_number then
            (cosignerHandleMessages M rest
              { task with current_cosign := none, attempt_manager := res.1 }
              { db with
                latestCosigned := some current.block_number
                cosignChannel := db.cosignChannel ++ [⟨current, signature⟩] }).map
              (fun r => (r.1, r.2.1, true))
          else none
        | none => none
      | _ => none

/-- `CosignerTask::run_iteration`. -/
def cosignerRunIteration (M : AttemptManagerModel) (task : CosignerTaskState M)
    (db : CosignerDb M) : Option (CosignerTaskState M × CosignerDb M × Bool) :=
  match cosignerCheckCosign M task db with
  | none => none
  | some r =>
    cosignerHandleMessages M r.2.coordinatorToCosigner r.1
      { r.2 with coordinatorToCosigner := [] }

/-- The task invariant: any in-flight cosign is strictly beyond
`LatestCosigned`. It holds at task creation (`current_cosign: None`). -/
def CosignerInv (M : AttemptManagerModel) (task : CosignerTaskState M)
    (db : CosignerDb M) : Prop :=
  ∀ c, task.current_cosign = some c → optLtSome db.latestCosigned c.block_number = true

/-- The cosign-check phase leaves `LatestCosigned` and the `Cosign` channel
alone and preserves the task invariant. -/
theorem cosignerCheckCosign_spec (M : AttemptManagerModel)
    (task : CosignerTaskState M) (db : CosignerDb M)
    (t1 : CosignerTaskState M) (d1 : CosignerDb M)
    (h : cosignerCheckCosign M task db = some (t1, d1)) :
    d1.latestCosigned = db.latestCosigned ∧
    d1.cosignChannel = db.cosignChannel ∧
    (CosignerInv M task db → CosignerInv M t1 d1) := by
  rw [cosignerCheckCosign] at h
  split at h
  · obtain ⟨rfl, rfl⟩ := Prod.mk.inj (Option.some.inj h)
    exact ⟨rfl, rfl, id⟩
  · rename_i cosign
    split at h
    · rename_i hlt
      split at h
      · split at h
        · rename_i current_cosign heqcur
          split at h
          · obtain ⟨rfl, rfl⟩ := Prod.mk.inj (Option.some.inj h)
            refine ⟨rfl, rfl, fun _ c hc => ?_⟩
            cases Option.some.inj hc
            exact hlt
          · exact absurd h (by simp)
        · obtain ⟨rfl, rfl⟩ := Prod.mk.inj (Option.some.inj h)
          refine ⟨rfl, rfl, fun _ c hc => ?_⟩
          cases Option.some.inj hc
          exact hlt
      · obtain ⟨rfl, rfl⟩ := Prod.mk.inj (Option.some.inj h)
        exact ⟨rfl, rfl, id⟩
    · obtain ⟨rfl, rfl⟩ := Prod.mk.inj (Option.some.inj h)
      exact ⟨rfl, rfl, id⟩

/-- When `ToCosign` holds a fresh cosign while an older one is in flight, the
check phase retires the old id and registers the new one — and panics if the
in-flight cosign is not actually older. -/
theorem cosignerCheckCosign_supersede (M : AttemptManagerModel)
    (task : CosignerTaskState M) (db : CosignerDb M) (cosign old : CosignData)
    (ht : db.toCosign = some cosign)
    (hl : optLtSome db.latestCosigned cosign.block_number = true)
    (hc : task.current_cosign = some old) (hne : old ≠ cosign) :
    (old.block_number < cosign.block_number →
      cosignerCheckCosign M task db =
        some (cosignerRegister M task db cosign
          (M.retire task.attempt_manager (VariantSignId.Cosign old.block_number)))) ∧
    (¬ old.block_number < cosign.block_number →
      cosignerCheckCosign M task db = none) := by
  have hne' : task.current_cosign ≠ some cosign := by
    rw [hc]
    simpa using hne
  constructor
  · intro hbn
    rw [cosignerCheckCosign, ht]
    dsimp only
    rw [if_pos hl, hc, if_pos (hc ▸ hne')]
    dsimp only
    rw [if_pos hbn]
  · intro hbn
    rw [cosignerCheckCosign, ht]
    dsimp only
    rw [if_pos hl, hc, if_pos (hc ▸ hne')]
    dsimp only
    rw [if_neg hbn]

/-- The message loop preserves the invariant and emits at most one
`SignedCosign`: the in-flight one, whose block number is past
`LatestCosigned`. -/
theorem cosignerHandleMessages_spec (M : AttemptManagerModel)
    (msgs : List SignMessage) (task : CosignerTaskState M) (db : CosignerDb M)
    (task' : CosignerTaskState M) (db' : CosignerDb M) (it : Bool)
    (hInv : CosignerInv M task db)
    (h : cosignerHandleMessages M msgs task db = some (task', db', it)) :
    CosignerInv M task' db' ∧
    ((db'.cosignChannel = db.cosignChannel ∧ db'.latestCosigned = db.latestCosigned ∧
        task'.current_cosign = task.current_cosign) ∨
      ∃ c sig, task.current_cosign = some c ∧
        db'.cosignChannel = db.cosignChannel ++ [⟨c, sig⟩] ∧
        db'.latestCosigned = some c.block_number ∧
        optLtSome db.latestCosigned c.block_number = true ∧
        task'.current_cosign = none) := by
  induction msgs generalizing task db task' db' it with
  | nil =>
    simp only [cosignerHandleMessages, Option.some.injEq, Prod.mk.injEq] at h
    obtain ⟨rfl, rfl, rfl⟩ := h
    exact ⟨hInv, Or.inl ⟨rfl, rfl, rfl⟩⟩
  | cons msg rest ih =>
    rw [cosignerHandleMessages] at h
    split at h
    · rw [Option.map_eq_some'] at h
      obtain ⟨⟨ta, da, ita⟩, ha, hfa⟩ := h
      simp only [Prod.mk.injEq] at hfa
      obtain ⟨rfl, rfl, rfl⟩ := hfa
      obtain ⟨hI, hd⟩ := ih _ _ _ _ _ (by exact fun c hc => hInv c hc) ha
      refine ⟨hI, ?_⟩
      rcases hd with ⟨e1, e2, e3⟩ | ⟨c, sig, hc, hch, hl2, hopt, hcur⟩
      · exact Or.inl ⟨e1, e2, e3⟩
      · exact Or.inr ⟨c, sig, hc, hch, hl2, hopt, hcur⟩
    · split at h
      · rename_i blk
        split at h
        · rename_i current heqcur
          split at h
          · rename_i hbn
            rw [Option.map_eq_some'] at h
            obtain ⟨⟨ta, da, ita⟩, ha, hfa⟩ := h
            simp only [Prod.mk.injEq] at hfa
            obtain ⟨rfl, rfl, rfl⟩ := hfa
            obtain ⟨hI, hd⟩ :=
              ih _ _ _ _ _ (by exact fun c hc => absurd hc (by simp)) ha
            refine ⟨hI, ?_⟩
            rcases hd with ⟨e1, e2, e3⟩ | ⟨c2, sig2, hc2, -, -, -, -⟩
            · exact Or.inr ⟨current, _, heqcur, e1, e2, hInv current heqcur, e3⟩
            · exact absurd hc2 (by simp)
          · exact absurd h (by simp)
        · exact absurd h (by simp)
      · exact absurd h (by simp)

/-- **C8.** The cosigner task works only on the latest cosign.  (a) When
`ToCosign` holds a cosign past `LatestCosigned` that differs from the in-flight
one, the check phase retires `VariantSignId::Cosign(old_block_number)` and
registers `VariantSignId::Cosign(new_block_number)` (panicking if the in-flight
cosign were not older).  (b) Under the task invariant — any in-flight cosign is
past `LatestCosigned`, which holds at task creation — a `run_iteration`
preserves the invariant and only ever appends a single `SignedCosign` whose
cosign is exactly the one the task was working on after the check phase, with a
block number strictly past `LatestCosigned` as of the start of the iteration;
that block number becomes the new `LatestCosigned`. -/
theorem C8_cosigner_latest_only (M : AttemptManagerModel)
    (task : CosignerTaskState M) (db : CosignerDb M) :
    (∀ cosign old, db.toCosign = some cosign →
      optLtSome db.latestCosigned cosign.block_number = true →
      task.current_cosign = some old → old ≠ cosign →
      ((old.block_number < cosign.block_number →
        cosignerCheckCosign M task db =
          some (cosignerRegister M task db cosign
            (M.retire task.attempt_manager (VariantSignId.Cosign old.block_number)))) ∧
       (cosignerRegister M task db cosign
          (M.retire task.attempt_manager
            (VariantSignId.Cosign old.block_number))).1.current_cosign = some cosign ∧
       (¬ old.block_number < cosign.block_number →
        cosignerCheckCosign M task db = none))) ∧
    (∀ task' db' it, CosignerInv M task db →
      cosignerRunIteration M task db = some (task', db', it) →
      CosignerInv M task' db' ∧
      (db'.cosignChannel = db.cosignChannel ∨
        ∃ c sig, db'.cosignChannel = db.cosignChannel ++ [⟨c, sig⟩] ∧
          (cosignerCheckCosign M task db).map (fun r => r.1.current_cosign)
            = some (some c) ∧
          optLtSome db.latestCosigned c.block_number = true ∧
          db'.latestCosigned = some c.block_number)) := by
  constructor
  · intro cosign old ht hl hc hne
    obtain ⟨h1, h2⟩ := cosignerCheckCosign_supersede M task db cosign old ht hl hc hne
    exact ⟨h1, rfl, h2⟩
  · intro task' db' it hInv hrun
    rw [cosignerRunIteration] at hrun
    split at hrun
    · exact absurd hrun (by simp)
    · rename_i r heq
      obtain ⟨hlat, hchan, hinvp⟩ := cosignerCheckCosign_spec M task db r.1 r.2 heq
      obtain ⟨hI, hd⟩ := cosignerHandleMessages_spec M r.2.coordinatorToCosigner r.1
        { r.2 with coordinatorToCosigner := [] } task' db' it
        (by exact fun c hc => hinvp hInv c hc) hrun
      refine ⟨hI, ?_⟩
      rcases hd with ⟨e1, e2, e3⟩ | ⟨c, sig, hc, hch, hl2, hopt, hcur⟩
      · exact Or.inl (e1.trans hchan)
      · refine Or.inr ⟨c, sig, ?_, ?_, ?_, hl2⟩
        · rw [hch]
          rw [show ({ r.2 with coordinatorToCosigner := [] } : CosignerDb M).cosignChannel
            = r.2.cosignChannel from rfl, hchan]
        · rw [heq, Option.map_some']
          exact congrArg some hc
        · rw [← hlat]
          exact hopt

/-- A tiny concrete attempt-manager instance: its state is the registered
cosign's block number, registration emits one message, and handling any
message yields a signature for the registered id. -/
def c8Am : AttemptManagerModel where
  AM := Option Nat
  Machine := Bytes
  ProcMsg := Bytes
  Key := Nat
  mkMachine := fun k msg => k :: msg
  retire := fun am _ => am
  register := fun _ id _ =>
    (match id with | .Cosign bn => some bn | _ => none, [[1]])
  handle := fun am _ =>
    (am, match am with
      | some bn => AmResponse.signature (VariantSignId.Cosign bn) [9, 9]
      | none => AmResponse.messages [[2]])

/-- The cosign to work on: block 5. -/
def c8Cosign : CosignData := ⟨5, List.replicate 32 1⟩

/-- A database holding cosign 5 to sign, latest cosigned 3, and one pending
coordinator message. -/
def c8Db : CosignerDb c8Am where
  toCosign := some c8Cosign
  latestCosigned := some 3
  coordinatorToCosigner := [SignMessage.Reattempt ⟨0, VariantSignId.Cosign 5, 0⟩]
  cosignerToCoordinator := []
  cosignChannel := []

/-- A fresh task (nothing in flight). -/
def c8Task : CosignerTaskState c8Am := ⟨([0] : List Nat), none, (none : Option Nat)⟩

/-- A task with the older cosign 4 in flight. -/
def c8TaskOld : CosignerTaskState c8Am :=
  ⟨([0] : List Nat), some ⟨4, List.replicate 32 1⟩, (some 4 : Option Nat)⟩

/-- A task whose in-flight cosign 7 is *not* older than cosign 5. -/
def c8TaskBad : CosignerTaskState c8Am :=
  ⟨([0] : List Nat), some ⟨7, List.replicate 32 1⟩, (some 7 : Option Nat)⟩

/-- The result of one full iteration from the fresh task. -/
def c8After : CosignerTaskState c8Am × CosignerDb c8Am × Bool :=
  (cosignerRunIteration c8Am c8Task c8Db).getD (c8Task, c8Db, false)

/-- C8 run concretely: the fresh cosign 5 supersedes the in-flight cosign 4
(retiring its id and registering the new one), a non-older in-flight cosign
panics, and a full iteration from a fresh task emits exactly one
`SignedCosign` — for cosign 5, past `LatestCosigned = 3` — setting
`LatestCosigned` to 5. -/
theorem C8_witness :
    cosignerCheckCosign c8Am c8TaskOld c8Db =
      some (cosignerRegister c8Am c8TaskOld c8Db c8Cosign
        (c8Am.retire c8TaskOld.attempt_manager (VariantSignId.Cosign 4))) ∧
    cosignerCheckCosign c8Am c8TaskBad c8Db = none ∧
    (c8After.2.1.cosignChannel = [⟨c8Cosign, [9, 9]⟩] ∧
     c8After.2.1.latestCosigned = some 5 ∧
     c8After.1.current_cosign = none ∧
     c8After.2.2 = true ∧
     optLtSome c8Db.latestCosigned 5 = true) := by
  obtain ⟨hsup, -⟩ := C8_cosigner_latest_only c8Am c8TaskOld c8Db
  obtain ⟨hsup2, -⟩ := C8_cosigner_latest_only c8Am c8TaskBad c8Db
  obtain ⟨hfresh, hbad, -⟩ :=
    hsup c8Cosign ⟨4, List.replicate 32 1⟩ rfl (by decide) rfl (by decide)
  obtain ⟨-, -, hpanic⟩ :=
    hsup2 c8Cosign ⟨7, List.replicate 32 1⟩ rfl (by decide) rfl (by decide)
  exact ⟨hfresh (by decide), hpanic (by decide), rfl, rfl, rfl, rfl, rfl⟩

/-! ### The report task's batch building (scanner/src/report.rs)

`ReportTask::run_iteration` turns a notable block's sorted `InInstruction`s
into `Batch`es.  `Batch`, its SCALE encoding, and `MAX_BATCH_SIZE` come from
`serai_in_instructions_primitives`, outside the excerpt; modelled from the
spec: instructions are opaque, the encoded size of a batch is an arbitrary
function `encSize` of its instruction list (its other fields — network, a
`u32` id, a 32-byte block hash — are fixed-width, so the SCALE length varies
only with the instructions), and `MAX_BATCH_SIZE` is a parameter.  The loop
is run on the already-sorted instruction list; the concatenation conclusion
below then says batching the sorted list preserves and partitions it. -/

/-- `serai_in_instructions_primitives::Batch` over opaque instructions. -/
structure Batch (ι : Type) where
  network : Nat
  id : Nat
  block : Bytes
  instructions : List ι
deriving DecidableEq

/-- `ReportDb::acquire_batch_id` (report/db.rs): return `NextBatchId` (0 when
unset) and store its successor. -/
def acquire_batch_id (nextBatchId : Option Nat) : Nat × Option Nat :=
  (nextBatchId.getD 0, some (nextBatchId.getD 0 + 1))

/-- The loop state: emitted batches, the batch being filled (`batches.last_mut()`),
and the `NextBatchId` key. -/
structure ReportState (ι : Type) where
  finished : List (Batch ι)
  cur : Batch ι
  nextBatchId : Option Nat

/-- One iteration of `for instruction in in_instructions` (report.rs): push the
instruction, and if the batch over-sizes, pop it back, acquire a fresh id and
start a new batch holding just this instruction.  The popped-back batch is
emitted unchecked. -/
def report_step {ι : Type} (encSize : List ι → Nat) (maxBatchSize network : Nat)
    (block : Bytes) (st : ReportState ι) (instruction : ι) : ReportState ι :=
  if encSize (st.cur.instructions ++ [instruction]) > maxBatchSize then
    { finished := st.finished ++ [st.cur]
      cur := { network := network, id := (acquire_batch_id st.nextBatchId).1,
               block := block, instructions := [instruction] }
      nextBatchId := (acquire_batch_id st.nextBatchId).2 }
  else
    { st with cur := { st.cur with instructions := st.cur.instructions ++ [instruction] } }

/-- The batch-building block of `run_iteration`: acquire the first id, start
with an empty batch, fold the loop, and emit all batches (with the final
`NextBatchId` state). -/
def report_batches {ι : Type} (encSize : List ι → Nat) (maxBatchSize network : Nat)
    (block : Bytes) (next0 : Option Nat) (instructions : List ι) :
    List (Batch ι) × Option Nat :=
  let stf := instructions.foldl (report_step encSize maxBatchSize network block)
    { finished := []
      cur := { network := network, id := (acquire_batch_id next0).1, block := block,
               instructions := [] }
      nextBatchId := (acquire_batch_id next0).2 }
  (stf.finished ++ [stf.cur], stf.nextBatchId)

theorem range'_pairwise_lt : ∀ (n s : Nat), (List.range' s n).Pairwise (· < ·)
  | 0, _ => by simp
  | n + 1, s => by
    rw [List.range']
    refine List.Pairwise.cons ?_ (range'_pairwise_lt n (s + 1))
    intro x hx
    have := (List.mem_range'_1.mp hx).1
    omega

/-- The loop invariant: batch ids are consecutive from `base`, `NextBatchId`
trails the current batch's id, every batch carries the block's hash and
network, and no instruction is lost or reordered. -/
theorem report_foldl_spec {ι : Type} (encSize : List ι → Nat)
    (maxBatchSize network : Nat) (block : Bytes) (l : List ι) :
    ∀ (st : ReportState ι) (base : Nat),
    st.finished.map Batch.id = List.range' base st.finished.length →
    st.cur.id = base + st.finished.length →
    st.nextBatchId = some (st.cur.id + 1) →
    (∀ b ∈ st.finished, b.block = block ∧ b.network = network) →
    st.cur.block = block → st.cur.network = network →
    ((l.foldl (report_step encSize maxBatchSize network block) st).finished.map Batch.id
      = List.range' base
          (l.foldl (report_step encSize maxBatchSize network block) st).finished.length ∧
     (l.foldl (report_step encSize maxBatchSize network block) st).cur.id
      = base + (l.foldl (report_step encSize maxBatchSize network block) st).finished.length ∧
     (l.foldl (report_step encSize maxBatchSize network block) st).nextBatchId
      = some ((l.foldl (report_step encSize maxBatchSize network block) st).cur.id + 1) ∧
     (∀ b ∈ (l.foldl (report_step encSize maxBatchSize network block) st).finished,
        b.block = block ∧ b.network = network) ∧
     (l.foldl (report_step encSize maxBatchSize network block) st).cur.block = block ∧
     (l.foldl (report_step encSize maxBatchSize network block) st).cur.network = network ∧
     ((l.foldl (report_step encSize maxBatchSize network block) st).finished.map
        Batch.instructions).flatten
       ++ (l.foldl (report_step encSize maxBatchSize network block) st).cur.instructions
      = (st.finished.map Batch.instructions).flatten ++ st.cur.instructions ++ l) := by
  induction l with
  | nil => exact fun st base h1 h2 h3 h4 h5 h6 => ⟨h1, h2, h3, h4, h5, h6, by simp⟩
  | cons i rest ih =>
    intro st base h1 h2 h3 h4 h5 h6
    rw [List.foldl_cons]
    by_cases hsz : encSize (st.cur.instructions ++ [i]) > maxBatchSize
    · have hstep : report_step encSize maxBatchSize network block st i =
        { finished := st.finished ++ [st.cur]
          cur := { network := network, id := st.cur.id + 1, block := block,
                   instructions := [i] }
          nextBatchId := some (st.cur.id + 1 + 1) } := by
        rw [report_step, if_pos hsz, h3]
        rfl
      rw [hstep]
      have g1 : (st.finished ++ [st.cur]).map Batch.id
          = List.range' base (st.finished ++ [st.cur]).length := by
        simp only [List.map_append, h1, List.map_cons, List.map_nil, List.length_append,
          List.length_cons, List.length_nil]
        rw [h2, ← range'_concat_one]
      have g2 : st.cur.id + 1 = base + (st.finished ++ [st.cur]).length := by
        simp only [List.length_append, List.length_cons, List.length_nil]
        omega
      have g4 : ∀ b ∈ st.finished ++ [st.cur], b.block = block ∧ b.network = network := by
        intro b hb
        rcases List.mem_append.mp hb with hb | hb
        · exact h4 b hb
        · rw [List.mem_singleton.mp hb]
          exact ⟨h5, h6⟩
      obtain ⟨e1, e2, e3, e4, e5, e6, e7⟩ :=
        ih { finished := st.finished ++ [st.cur]
             cur := { network := network, id := st.cur.id + 1, block := block,
                      instructions := [i] }
             nextBatchId := some (st.cur.id + 1 + 1) } base g1 g2 rfl g4 rfl rfl
      refine ⟨e1, e2, e3, e4, e5, e6, ?_⟩
      rw [e7]
      simp
    · have hstep : report_step encSize maxBatchSize network block st i =
        { st with cur := { st.cur with instructions := st.cur.instructions ++ [i] } } := by
        rw [report_step, if_neg hsz]
      rw [hstep]
      obtain ⟨e1, e2, e3, e4, e5, e6, e7⟩ :=
        ih { st with cur := { st.cur with instructions := st.cur.instructions ++ [i] } }
          base h1 h2 h3 h4 h5 h6
      refine ⟨e1, e2, e3, e4, e5, e6, ?_⟩
      rw [e7]
      simp

/-- The size invariant: as long as the empty batch and every remaining
instruction alone fit in a batch, every batch the loop holds stays within the
bound. -/
theorem report_foldl_size {ι : Type} (encSize : List ι → Nat)
    (maxBatchSize network : Nat) (block : Bytes) (l : List ι) :
    ∀ st : ReportState ι,
    (∀ i ∈ l, encSize [i] ≤ maxBatchSize) →
    (∀ b ∈ st.finished, encSize b.instructions ≤ maxBatchSize) →
    encSize st.cur.instructions ≤ maxBatchSize →
    ((∀ b ∈ (l.foldl (report_step encSize maxBatchSize network block) st).finished,
        encSize b.instructions ≤ maxBatchSize) ∧
     encSize (l.foldl (report_step encSize maxBatchSize network block) st).cur.instructions
       ≤ maxBatchSize) := by
  induction l with
  | nil => exact fun st _ hfin hcur => ⟨hfin, hcur⟩
  | cons i rest ih =>
    intro st hl hfin hcur
    rw [List.foldl_cons]
    by_cases hsz : encSize (st.cur.instructions ++ [i]) > maxBatchSize
    · rw [report_step, if_pos hsz]
      refine ih _ (fun j hj => hl j (List.mem_cons_of_mem i hj)) ?_ ?_
      · intro b hb
        rcases List.mem_append.mp hb with hb | hb
        · exact hfin b hb
        · rw [List.mem_singleton.mp hb]
          exact hcur
      · exact hl i (List.mem_cons_self i rest)
    · rw [report_step, if_neg hsz]
      exact ih _ (fun j hj => hl j (List.mem_cons_of_mem i hj)) hfin (Nat.le_of_not_lt hsz)

/-- **C3.** For the batch-building loop over a notable block's sorted
instructions: ids are freshly acquired and consecutive from the `NextBatchId`
counter (hence strictly increasing), the counter ends past all of them, every
batch carries the block's hash (and network), and the concatenation of the
batches' instructions is exactly the (sorted) input.  The per-batch size bound
`≤ MAX_BATCH_SIZE`, however, only holds under the extra hypothesis that an
empty batch and every instruction on its own fit within the bound — the loop
emits a fresh singleton batch without re-checking it. -/
theorem C3_report_batch_building {ι : Type} (encSize : List ι → Nat)
    (maxBatchSize network : Nat) (block : Bytes) (next0 : Option Nat)
    (instructions : List ι) :
    ((report_batches encSize maxBatchSize network block next0 instructions).1.map Batch.id
       = List.range' (next0.getD 0)
           (report_batches encSize maxBatchSize network block next0 instructions).1.length) ∧
    ((report_batches encSize maxBatchSize network block next0 instructions).1.map
        Batch.id).Pairwise (· < ·) ∧
    ((report_batches encSize maxBatchSize network block next0 instructions).2
       = some (next0.getD 0
           + (report_batches encSize maxBatchSize network block next0 instructions).1.length)) ∧
    (∀ b ∈ (report_batches encSize maxBatchSize network block next0 instructions).1,
       b.block = block ∧ b.network = network) ∧
    (((report_batches encSize maxBatchSize network block next0 instructions).1.map
        Batch.instructions).flatten = instructions) ∧
    (encSize [] ≤ maxBatchSize → (∀ i ∈ instructions, encSize [i] ≤ maxBatchSize) →
      ∀ b ∈ (report_batches encSize maxBatchSize network block next0 instructions).1,
        encSize b.instructions ≤ maxBatchSize) := by
  obtain ⟨e1, e2, e3, e4, e5, e6, e7⟩ :=
    report_foldl_spec encSize maxBatchSize network block instructions
      { finished := []
        cur := { network := network, id := (acquire_batch_id next0).1, block := block,
                 instructions := [] }
        nextBatchId := (acquire_batch_id next0).2 }
      (next0.getD 0) rfl rfl rfl (by simp) rfl rfl
  have hsz := report_foldl_size encSize maxBatchSize network block instructions
    { finished := []
      cur := { network := network, id := (acquire_batch_id next0).1, block := block,
               instructions := [] }
      nextBatchId := (acquire_batch_id next0).2 }
  rcases hq : instructions.foldl (report_step encSize maxBatchSize network block)
      { finished := []
        cur := { network := network, id := (acquire_batch_id next0).1, block := block,
                 instructions := [] }
        nextBatchId := (acquire_batch_id next0).2 } with ⟨fin, cur, nid⟩
  rw [hq] at e1 e2 e3 e4 e5 e6 e7
  have hrb : report_batches encSize maxBatchSize network block next0 instructions
      = (fin ++ [cur], nid) := by
    rw [report_batches, hq]
  rw [hrb]
  dsimp only at e1 e2 e3 e4 e5 e6 e7 ⊢
  have hids : (fin ++ [cur]).map Batch.id
      = List.range' (next0.getD 0) (fin ++ [cur]).length := by
    simp only [List.map_append, List.map_cons, List.map_nil, e1, e2, List.length_append,
      List.length_cons, List.length_nil]
    rw [range'_concat_one]
  refine ⟨hids, ?_, ?_, ?_, ?_, ?_⟩
  · rw [hids]
    exact range'_pairwise_lt _ _
  · rw [e3, e2]
    simp only [List.length_append, List.length_cons, List.length_nil, Option.some.injEq]
    omega
  · intro b hb
    rcases List.mem_append.mp hb with hb | hb
    · exact e4 b hb
    · rw [List.mem_singleton.mp hb]
      exact ⟨e5, e6⟩
  · simp only [List.map_nil, List.flatten_nil, List.nil_append] at e7
    simp only [List.map_append, List.map_cons, List.map_nil, List.flatten_append,
      List.flatten_cons, List.flatten_nil, List.append_nil]
    exact e7
  · intro h0 hsing
    obtain ⟨s1, s2⟩ := hsz hsing (by simp) h0
    rw [hq] at s1 s2
    intro b hb
    rcases List.mem_append.mp hb with hb | hb
    · exact s1 b hb
    · rw [List.mem_singleton.mp hb]
      exact s2

/-- A concrete batch-encoding size: 38 bytes of fixed-width fields plus the
instructions' sizes (each instruction stands for its own encoded size). -/
def c3enc : List Nat → Nat := fun l => 38 + l.foldl (· + ·) 0

/-- C3's per-batch size bound is false as claimed: with `MAX_BATCH_SIZE = 50`,
a single instruction of encoded size 100 is emitted in a singleton batch of
size 138 (preceded by an empty batch), escaping the over-size check. -/
theorem C3_counterexample :
    ((report_batches c3enc 50 0 [7] none [100]).1.map fun b => c3enc b.instructions)
      = [38, 138] ∧
    ¬ 138 ≤ 50 ∧
    (report_batches c3enc 50 0 [7] none [100]).1.map Batch.instructions = [[], [100]] :=
  ⟨rfl, by decide, rfl⟩

/-- The amended C3 at a concrete input: two instructions of size 100 against
`MAX_BATCH_SIZE = 150` yield batches with ids 0 and 1, final counter 2, the
block's hash everywhere, the instructions partitioned in order, and both
batches within the size bound. -/
theorem C3_witness :
    (report_batches c3enc 150 0 [7] none [100, 100]).1.map Batch.id = List.range' 0 2 ∧
    (report_batches c3enc 150 0 [7] none [100, 100]).2 = some 2 ∧
    (report_batches c3enc 150 0 [7] none [100, 100]).1.map Batch.block = [[7], [7]] ∧
    ((report_batches c3enc 150 0 [7] none [100, 100]).1.map Batch.instructions).flatten
      = [100, 100] ∧
    c3enc ((report_batches c3enc 150 0 [7] none [100, 100]).1.getD 1
      ⟨0, 0, [], []⟩).instructions ≤ 150 := by
  obtain ⟨e1, e2, e3, e4, e5, e6⟩ := C3_report_batch_building c3enc 150 0 [7] none [100, 100]
  have h6 := e6 (by decide) (by decide)
  exact ⟨by rw [e1]; rfl, by rw [e3]; rfl, by rfl, e5, h6 _ (by decide)⟩

end Serai
